import Mathlib

/-!
Verification of the token cache-and-enrichment pipeline in
`cache-solana-tokens.js` (TelegramWebsockets repository).

The JavaScript source is shallowly embedded: JS objects become structures,
JS numbers that only ever hold decimal amounts (prices, market caps,
supplies) become `Rat`, absent object fields become `Option`, and JS string
falsiness (`s || d`) is modelled by testing for the empty string.  Upstream
HTTP calls are modelled by passing their outcome in as a parameter
(`Except`/`Option` values), since the code wraps every call in a
`try`/`catch` that we mirror by case analysis on that parameter.
-/

/-! ## Configuration constants (lines 537-551 of the source) -/

def CACHE_EXPIRY : Nat := 300

def ENRICHED_CACHE_EXPIRY : Nat := 300

def MAX_TOKENS : Nat := 50

def MIN_MARKET_CAP : Rat := 25000

def BATCH_SIZE : Nat := 20

def METADATA_CACHE_EXPIRY : Nat := 3600

/-! ## Data model -/

/-- One entry of the DexScreener listing response (`token-profiles/latest`).
`tokenAddress = ""` models a missing/empty address (falsy in JS). -/
structure ListingToken where
  chainId : String
  tokenAddress : String
  url : String
  icon : String
  header : String
  description : String
  links : List String
deriving DecidableEq

/-- The basic cached token record built by `fetchEnrichAndCache` /
`fetchAndCacheSolanaTokens` from a listing entry (the `.map` at lines
1548-1555). -/
structure RawToken where
  tokenAddress : String
  url : String
  icon : String
  header : String
  description : String
  links : List String
deriving DecidableEq

def toRawToken (t : ListingToken) : RawToken :=
  { tokenAddress := t.tokenAddress, url := t.url, icon := t.icon,
    header := t.header, description := t.description, links := t.links }

/-- One side (`baseToken`/`quoteToken`) of a DexScreener pair.  An empty
string models an absent/falsy `name`/`symbol`. -/
structure PairSide where
  address : String
  name : String
  symbol : String
deriving DecidableEq

/-- A DexScreener trading pair as consumed by `enrichTokenWithData`:
`priceUsd` and `marketCap` after `num` normalisation. -/
structure DexPair where
  baseToken : Option PairSide
  quoteToken : Option PairSide
  priceUsd : Rat
  marketCap : Rat
deriving DecidableEq

/-- The metadata object read out of the Helius batch response: the code
accesses `.name`, `.symbol`, `.mintable`, `.freezable` (the latter two with
`|| false`, modelled as plain `Bool`). -/
structure HeliusMeta where
  name : String
  symbol : String
  mintable : Bool
  freezable : Bool
deriving DecidableEq

/-- The supply object read out of the Helius RPC response: the code accesses
`.amount` (a numeric string, `none` = absent/falsy) and `.decimals`
(`none` = absent). -/
structure TokenSupply where
  amount : Option Int
  decimals : Option Nat
deriving DecidableEq

/-- An enriched token record.  `Option` fields model JS object fields that
some code paths leave out entirely: `decimals` and `header` are absent from
some records, `filtered` is absent from batch-level-failure records
(`processBatch`'s catch), `error` is present only on failures. -/
structure EnrichedToken where
  tokenAddress : String
  url : String
  icon : String
  header : Option String
  description : String
  links : List String
  name : String
  ticker : String
  price : Rat
  totalSupply : Rat
  decimals : Option Nat
  mintable : Bool
  freezable : Bool
  marketCap : Rat
  enrichedAt : Nat
  success : Bool
  hasDexData : Bool
  error : Option String
  filtered : Option Bool
deriving DecidableEq

/-! ## JS helpers -/

/-- JS `s || d` for strings: the empty string is falsy. -/
def jsOr (s d : String) : String := if s = "" then d else s

/-- `supply.decimals || 9` (a decimals value of `0` is falsy in JS). -/
def jsDecimals (s : TokenSupply) : Nat :=
  match s.decimals with
  | some d => if d = 0 then 9 else d
  | none => 9

/-- `parseInt(supply.amount) / Math.pow(10, supply.decimals || 9)` with the
`supply?.amount ? _ : 0` guard. -/
def jsTotalSupply (supply : Option TokenSupply) : Rat :=
  match supply with
  | some s =>
      match s.amount with
      | some a => (a : Rat) / 10 ^ jsDecimals s
      | none => 0
  | none => 0

/-- `supply?.decimals || 9`, present only on records that carry the field. -/
def jsDecimalsField (supply : Option TokenSupply) : Nat :=
  match supply with
  | some s => jsDecimals s
  | none => 9

/-- The JS post-processing predicate `!token.filtered`: an absent field and
`false` are both kept, only `filtered: true` is dropped. -/
def jsNotFiltered (r : EnrichedToken) : Bool :=
  match r.filtered with
  | some true => false
  | _ => true

/-! ## Per-token enrichment (`enrichTokenWithData`, lines 1331-1442) -/

/-- The record returned by `enrichTokenWithData`'s catch block (lines
1426-1441): spread of the raw token plus error sentinels and
`filtered: true`.  The spread keeps `header`; no `decimals` field exists. -/
def tokenErrorRecord (token : RawToken) (msg : String) (now : Nat) : EnrichedToken :=
  { tokenAddress := token.tokenAddress, url := token.url, icon := token.icon,
    header := some token.header, description := token.description,
    links := token.links,
    name := "Error", ticker := "ERR", price := 0, totalSupply := 0,
    decimals := none, mintable := false, freezable := false, marketCap := 0,
    enrichedAt := now, success := false, hasDexData := false,
    error := some msg, filtered := some true }

/-- `enrichTokenWithData(token, metadata, supply)` with the result of the
inner `fetchDexScreenerTokenData` call passed in: `.ok` is a resolved fetch
(possibly `null`), `.error` is a throw caught by the surrounding catch. -/
def enrichTokenWithData (token : RawToken) (metadata : Option HeliusMeta)
    (supply : Option TokenSupply) (dexFetch : Except String (Option DexPair))
    (now : Nat) : EnrichedToken :=
  match dexFetch with
  | .error msg => tokenErrorRecord token msg now
  | .ok dexData =>
    let fromDex : String × String × Rat × Rat :=
      match dexData with
      | none => ("Unknown", "N/A", 0, 0)
      | some pair =>
        let isBaseToken := pair.baseToken.any (fun b => b.address == token.tokenAddress)
        let tokenInfo := if isBaseToken then pair.baseToken else pair.quoteToken
        let nt : String × String :=
          match tokenInfo with
          | some ti => (jsOr ti.name "Unknown", jsOr ti.symbol "N/A")
          | none => ("Unknown", "N/A")
        (nt.1, nt.2, pair.priceUsd, pair.marketCap)
    let name0 := fromDex.1
    let ticker0 := fromDex.2.1
    let price := fromDex.2.2.1
    let marketCap := fromDex.2.2.2
    let merged : String × String :=
      match metadata with
      | some m =>
        if name0 = "Unknown" ∨ ticker0 = "N/A" then
          (jsOr m.name name0, jsOr m.symbol ticker0)
        else (name0, ticker0)
      | none => (name0, ticker0)
    let name := merged.1
    let ticker := merged.2
    let totalSupply := jsTotalSupply supply
    let mintable := (metadata.map (·.mintable)).getD false
    let freezable := (metadata.map (·.freezable)).getD false
    if marketCap < MIN_MARKET_CAP ∨ mintable ∨ freezable then
      { tokenAddress := token.tokenAddress, url := token.url,
        icon := token.icon, header := some token.header,
        description := token.description, links := token.links,
        name := name, ticker := ticker, price := price,
        totalSupply := totalSupply, decimals := some (jsDecimalsField supply),
        mintable := mintable, freezable := freezable, marketCap := marketCap,
        enrichedAt := now, success := dexData.isSome || supply.isSome,
        hasDexData := dexData.isSome, error := none, filtered := some true }
    else
      { tokenAddress := token.tokenAddress, url := token.url,
        icon := token.icon, header := none,
        description := token.description, links := token.links,
        name := name, ticker := ticker, price := price,
        totalSupply := totalSupply, decimals := some (jsDecimalsField supply),
        mintable := mintable, freezable := freezable, marketCap := marketCap,
        enrichedAt := now, success := dexData.isSome || supply.isSome,
        hasDexData := dexData.isSome, error := none, filtered := some false }

/-! ## Batch processing (`processBatch`, lines 1281-1328) -/

/-- The record built for every token of a batch when the parallel
metadata/supply fetch throws (lines 1313-1326): spread of the raw token,
error sentinels, and crucially NO `filtered` field at all. -/
def batchErrorRecord (token : RawToken) (msg : String) (now : Nat) : EnrichedToken :=
  { tokenAddress := token.tokenAddress, url := token.url, icon := token.icon,
    header := some token.header, description := token.description,
    links := token.links,
    name := "Error", ticker := "ERR", price := 0, totalSupply := 0,
    decimals := none, mintable := false, freezable := false, marketCap := 0,
    enrichedAt := now, success := false, hasDexData := false,
    error := some msg, filtered := none }

/-- `new Map` built by zipping the batch addresses with the parallel result
list, skipping falsy entries, later entries overwriting earlier ones
(`Map.set` semantics); lines 1292-1300. -/
def buildLookup {α : Type} (addrs : List String) (vals : List (Option α)) :
    String → Option α :=
  fun a =>
    (addrs.zip vals).foldl
      (fun acc p => if p.2.isSome ∧ p.1 = a then p.2 else acc) none

/-- `processBatch(tokens)` with the outcome of the parallel
`Promise.all([fetchTokenMetadataBatch, fetchTokenSupplyBatch])` passed in as
`batchFetch` and the per-token `fetchDexScreenerTokenData` outcomes passed in
as `dex`. -/
def processBatch (tokens : List RawToken)
    (batchFetch : Except String (List (Option HeliusMeta) × List (Option TokenSupply)))
    (dex : String → Except String (Option DexPair)) (now : Nat) :
    List EnrichedToken :=
  match batchFetch with
  | .error msg => tokens.map (fun t => batchErrorRecord t msg now)
  | .ok (batchMetadata, batchSupply) =>
    let tokenAddresses := tokens.map (·.tokenAddress)
    let metadataMap := buildLookup tokenAddresses batchMetadata
    let supplyMap := buildLookup tokenAddresses batchSupply
    tokens.map (fun t =>
      enrichTokenWithData t (metadataMap t.tokenAddress)
        (supplyMap t.tokenAddress) (dex t.tokenAddress) now)

/-! ## Optimized batch enrichment (`enrichTokensBatchOptimized`, 1249-1278) -/

/-- The early-exit qualification test of lines 1265-1269:
`marketCap >= MIN_MARKET_CAP && mintable === false && freezable === false`. -/
def isValidToken (r : EnrichedToken) : Bool :=
  decide (MIN_MARKET_CAP ≤ r.marketCap) && !r.mintable && !r.freezable

def countValid (l : List EnrichedToken) : Nat := (l.filter isValidToken).length

/-- The outcomes of the upstream calls made during one enrichment run,
indexed by batch number: `batchFetch n` is the parallel metadata/supply
fetch of batch `n`, `dex n a` the DexScreener search for address `a` during
batch `n`. -/
structure EnrichEnv where
  batchFetch : Nat → Except String (List (Option HeliusMeta) × List (Option TokenSupply))
  dex : Nat → String → Except String (Option DexPair)
  now : Nat

/-- The `for (let i = 0; i < tokensToProcess.length; i += BATCH_SIZE)` loop
of `enrichTokensBatchOptimized`, including the early-exit check after each
batch. -/
def enrichLoop (env : EnrichEnv) :
    List RawToken → Nat → List EnrichedToken → List EnrichedToken
  | [], _, acc => acc
  | t :: rest, idx, acc =>
    let batch := (t :: rest).take BATCH_SIZE
    let remaining := (t :: rest).drop BATCH_SIZE
    let results := processBatch batch (env.batchFetch idx) (env.dex idx) env.now
    let acc2 := acc ++ results
    if MAX_TOKENS ≤ countValid acc2 then acc2
    else enrichLoop env remaining (idx + 1) acc2
termination_by l => l.length
decreasing_by simp [List.length_drop, BATCH_SIZE]; omega

/-- `enrichTokensBatchOptimized(tokens, maxTokens)`: the
`maxTokens ? tokens.slice(0, maxTokens) : tokens` truncation (0 is falsy)
followed by the batch loop. -/
def enrichTokensBatchOptimized (tokens : List RawToken) (maxTokens : Option Nat)
    (env : EnrichEnv) : List EnrichedToken :=
  let tokensToProcess :=
    match maxTokens with
    | some n => if n = 0 then tokens else tokens.take n
    | none => tokens
  enrichLoop env tokensToProcess 0 []

/-! ## Listing filter and dedupe (lines 1526-1532) -/

/-- `Map.set` semantics: replace in place when the key exists, append
otherwise. -/
def mapInsert (m : List (String × ListingToken)) (k : String) (v : ListingToken) :
    List (String × ListingToken) :=
  if m.any (fun e => e.1 == k) then
    m.map (fun e => if e.1 == k then (k, v) else e)
  else m ++ [(k, v)]

/-- `Array.from(new Map(allTokens.filter(t => t.chainId === 'solana' &&
t.tokenAddress).map(t => [t.tokenAddress, t])).values())`. -/
def dedupeSolana (allTokens : List ListingToken) : List ListingToken :=
  ((allTokens.filter (fun t => t.chainId == "solana" && t.tokenAddress != "")).foldl
      (fun m t => mapInsert m t.tokenAddress t) []).map (·.2)

/-! ## `fetchEnrichAndCache` post-processing (lines 1516-1636) -/

/-- The merge-sort comparator corresponding to
`(a, b) => b.marketCap - a.marketCap` (descending by market cap); V8's
`Array.prototype.sort` with a consistent comparator is modelled as a stable
merge sort. -/
def marketCapDescLe (a b : EnrichedToken) : Bool :=
  decide (b.marketCap ≤ a.marketCap)

/-- The enriched snapshot persisted under `enriched_tokens /
solana:tokens:enriched` (the `filteredData` object of lines 1583-1590). -/
structure EnrichedSnapshot where
  timestamp : Nat
  originalTimestamp : Nat
  count : Nat
  successCount : Nat
  tokens : List EnrichedToken
  totalTokens : Nat
  maxTokens : Nat
  minMarketCap : Rat
deriving DecidableEq

/-- `fetchEnrichAndCache(maxTokens)` given the listing body returned by
`fetchDexLatest` and the enrichment-call outcomes.  Returns the persisted
enriched snapshot, or `none` when the run never reaches post-processing
(no solana tokens, or no `HELIUS_API_KEY`).  The store write itself
(`dbSet`) is modelled separately. -/
def fetchEnrichAndCache (allTokens : List ListingToken) (maxTokens : Option Nat)
    (heliusKey : Bool) (env : EnrichEnv) (now : Nat) : Option EnrichedSnapshot :=
  let solanaTokens := dedupeSolana allTokens
  if solanaTokens.isEmpty then none
  else
    let basicTokens := solanaTokens.map toRawToken
    if heliusKey then
      let enrichedTokens := enrichTokensBatchOptimized basicTokens maxTokens env
      let filteredTokens :=
        ((enrichedTokens.filter jsNotFiltered).mergeSort marketCapDescLe).take MAX_TOKENS
      some
        { timestamp := now, originalTimestamp := now,
          count := enrichedTokens.length,
          successCount := (enrichedTokens.filter (·.success)).length,
          tokens := filteredTokens,
          totalTokens := filteredTokens.length,
          maxTokens := MAX_TOKENS,
          minMarketCap := MIN_MARKET_CAP }
    else none

/-! ## Dual-tier store (`redisGet`/`redisSet`/`dbGet`/`dbSet`, lines 681-779)

A key/value tier is a list of `(key, value, absolute-expiry)` entries.
Payload values are an abstract type `α` (JSON round-tripping through
`JSON.stringify`/`JSON.parse` is the identity on JSON values); JS truthiness
of a payload is modelled by an explicit `truthy : α → Bool` parameter at
the call sites that test it. -/

abbrev KV (κ α : Type) := List (κ × α × Nat)

/-- Upsert semantics (`INSERT OR REPLACE` / Redis `SET`): replace in place
if the key exists, append otherwise. -/
def kvSet {κ α : Type} [BEq κ] (m : KV κ α) (k : κ) (v : α) (exp : Nat) : KV κ α :=
  if m.any (fun e => e.1 == k) then
    m.map (fun e => if e.1 == k then (k, v, exp) else e)
  else m ++ [(k, v, exp)]

def kvFind {κ α : Type} [BEq κ] (m : KV κ α) (k : κ) : Option (α × Nat) :=
  (m.find? (fun e => e.1 == k)).map (fun e => (e.2.1, e.2.2))

/-- Read honouring expiry: Redis native expiry, and the SQLite
`expires_at IS NULL OR expires_at > datetime('now')` filter (entries always
carry an expiry here since `dbSet` always sets one). -/
def kvGetLive {κ α : Type} [BEq κ] (m : KV κ α) (k : κ) (now : Nat) : Option α :=
  match kvFind m k with
  | some (v, exp) => if now < exp then some v else none
  | none => none

/-- The two SQLite tables created by `ensureDB` (lines 605-620); `dbGet` /
`dbSet` are only ever invoked with these two table names. -/
inductive DbTable where
  | basic_tokens
  | enriched_tokens
deriving DecidableEq

/-- The Redis key space: `dbGet`/`dbSet` use `` `${table}:${key}` `` keys,
the coordination markers use `lock:*` / `recent:*` / `refreshing:*` keys.
The two table names contain no colon, so the string key spaces are disjoint
and the composite keys are injective; the sum type encodes exactly that. -/
inductive RKey where
  | table (t : DbTable) (k : String)
  | mark (s : String)
deriving DecidableEq

/-- Global store state.  `redisUp` models `redisConnected && USE_REDIS`;
when it is false the Redis client was never created (`USE_REDIS` unset, the
default) or is closed, and any direct `redisClient.*` call throws. -/
structure CacheStore (α : Type) where
  redisUp : Bool
  redis : KV RKey α
  basicTbl : KV String α
  enrichedTbl : KV String α
deriving DecidableEq

def sqliteTbl {α : Type} (st : CacheStore α) : DbTable → KV String α
  | .basic_tokens => st.basicTbl
  | .enriched_tokens => st.enrichedTbl

/-- `redisGet(key)` (line 681): null unless connected and enabled. -/
def redisGet {α : Type} (st : CacheStore α) (k : RKey) (now : Nat) : Option α :=
  if st.redisUp then kvGetLive st.redis k now else none

/-- `redisSet(key, data, expirySeconds)` (line 693): no-op unless connected
and enabled (and errors are swallowed). -/
def redisSet {α : Type} (st : CacheStore α) (k : RKey) (v : α) (expiry now : Nat) :
    CacheStore α :=
  if st.redisUp then { st with redis := kvSet st.redis k v (now + expiry) } else st

/-- `redisExists(key)` (line 705). -/
def redisExists {α : Type} (st : CacheStore α) (k : RKey) (now : Nat) : Bool :=
  if st.redisUp then (kvGetLive st.redis k now).isSome else false

/-- `dbGet(table, key)` (lines 730-755): Redis first — but a falsy decoded
value falls through (`if (redisData)`) — then SQLite filtered on expiry. -/
def dbGet {α : Type} (truthy : α → Bool) (st : CacheStore α) (now : Nat)
    (table : DbTable) (key : String) : Option α :=
  let sqliteRead := kvGetLive (sqliteTbl st table) key now
  match redisGet st (.table table key) now with
  | some v => if truthy v then some v else sqliteRead
  | none => sqliteRead

/-- `dbSet(table, key, data, expirySeconds)` (lines 757-779): best-effort
Redis write, then SQLite upsert with `expires_at = now + expirySeconds`. -/
def dbSet {α : Type} (st : CacheStore α) (now : Nat) (table : DbTable)
    (key : String) (v : α) (ttl : Nat) : CacheStore α :=
  let st1 := redisSet st (.table table key) v ttl now
  match table with
  | .basic_tokens => { st1 with basicTbl := kvSet st1.basicTbl key v (now + ttl) }
  | .enriched_tokens => { st1 with enrichedTbl := kvSet st1.enrichedTbl key v (now + ttl) }

/-! ## ETag-based conditional fetch (`fetchDexLatest`, lines 910-939) -/

/-- Outcome of the `axios.get` on the listing endpoint: a resolved 2xx
response (axios only resolves 2xx), a 304 (axios throws, status 304), or
any other transport failure (axios throws). -/
inductive DexListingResp (α : Type) where
  | success (status : Nat) (etag : Option α) (body : α)
  | notModified
  | failure (msg : String)

/-- `fetchDexLatest()` given the stored state and the response the endpoint
produced for this request.  Returns the result (`.error` = the function
throws to its caller) and the store after the call. -/
def fetchDexLatest {α : Type} (truthy : α → Bool) (st : CacheStore α) (now : Nat)
    (resp : DexListingResp α) : Except String α × CacheStore α :=
  match resp with
  | .success status etag body =>
      if status = 200 then
        let st1 :=
          match etag with
          | some e =>
              if truthy e then dbSet st now .basic_tokens "dex:latest:etag" e CACHE_EXPIRY
              else st
          | none => st
        let st2 := dbSet st1 now .basic_tokens "dex:latest:body" body CACHE_EXPIRY
        (.ok body, st2)
      else (.ok body, st)
  | .notModified =>
      let cached := dbGet truthy st now .basic_tokens "dex:latest:body"
      match cached with
      | some v =>
          if truthy v then (.ok v, st)
          else (.error "Request failed with status code 304", st)
      | none => (.error "Request failed with status code 304", st)
  | .failure msg => (.error msg, st)

/-! ## Stale-while-revalidate metadata cache (`getHeliusMetaCached`,
lines 1017-1051) -/

/-- Observable outcome of one `getHeliusMetaCached` call. `syncFetched`
records whether the caller awaited an upstream `fetchTokenMetadata`;
`bgRefresh` whether a background refresh task was scheduled (its own store
effects happen after this call returns and are not folded in). -/
structure MetaCallResult (α : Type) where
  value : Option α
  syncFetched : Bool
  bgRefresh : Bool
  store : CacheStore α
deriving DecidableEq

/-- `getHeliusMetaCached(mint)` with the outcome `fresh` that a synchronous
`fetchTokenMetadata(mint)` would produce (`none` = it returned null). -/
def getHeliusMetaCached {α : Type} (truthy : α → Bool) (st : CacheStore α)
    (now : Nat) (mint : String) (fresh : Option α) : MetaCallResult α :=
  let key := "solana:token:meta:" ++ mint
  let refreshingKey := RKey.mark ("refreshing:meta:" ++ mint)
  let hit := dbGet truthy st now .basic_tokens key
  let isRefreshing := redisExists st refreshingKey now
  if (match hit with | some v => truthy v | none => false) && !isRefreshing then
    { value := hit, syncFetched := false, bgRefresh := true, store := st }
  else
    match fresh with
    | some m =>
        if truthy m then
          { value := some m, syncFetched := true, bgRefresh := false,
            store := dbSet st now .basic_tokens key m METADATA_CACHE_EXPIRY }
        else { value := some m, syncFetched := true, bgRefresh := false, store := st }
    | none => { value := none, syncFetched := true, bgRefresh := false, store := st }

/-! ## Single-flight market lookup, sequential view (`getMarketDataWithLock`,
lines 874-907)

This is the single-caller (no interleaving) semantics; the interleaved
semantics used for the concurrency claim is in namespace `SingleFlight`
below.  Note the function uses `redisClient.set(...)` / `redisClient.del`
directly, NOT the guarded `redisGet`/`redisSet` helpers: when the client
was never created (`USE_REDIS` unset) those calls throw a `TypeError`. -/
def getMarketDataWithLock {α : Type} (truthy : α → Bool) (st : CacheStore α)
    (now : Nat) (mint : String) (fetchResult : Option α) :
    Except String (Option α × CacheStore α) :=
  let lockKey := RKey.mark ("lock:market:" ++ mint)
  let recentlyKey := RKey.mark ("recent:market:" ++ mint)
  let recently := redisGet st recentlyKey now
  if (match recently with | some r => truthy r | none => false) then
    .ok (recently, st)
  else if !st.redisUp then
    .error "TypeError: Cannot read properties of null (reading set)"
  else if (kvGetLive st.redis lockKey now).isSome then
    -- lock held by someone else: poll the recent marker;  in this
    -- sequential model nothing else writes it, so all 20 polls miss and
    -- the call returns null
    .ok (none, st)
  else
    -- lock acquired (SET NX), fetch, cache a truthy result for 30s,
    -- release the lock in `finally` (net store effect: marker only)
    let st1 :=
      match fetchResult with
      | some d =>
          if truthy d then redisSet st recentlyKey d 30 now else st
      | none => st
    .ok (fetchResult, st1)

/-! ## Single-flight market lookup, interleaved view (for the concurrency
claim)

Each caller of `getMarketDataWithLock` for one fixed key is a process whose
suspension points (`await`s) cut the body into atomic steps.  The shared
state is the Redis lock and the 30-second recent-result marker; within one
lock-TTL window neither expires, so expiry is not modelled.  `fr i` is the
value caller `i`'s upstream fetch would produce. -/

namespace SingleFlight

inductive Pc (α : Type) where
  | start
  | tryLock
  | fetching
  | storing (d : Option α)
  | releasing (d : Option α)
  | polling (i : Nat)
  | done (r : Option α)
deriving DecidableEq

structure Proc (α : Type) where
  pc : Pc α
  fetches : Nat
  everHeld : Bool
deriving DecidableEq

structure Config (α : Type) where
  lock : Bool
  recently : Option α
  procs : List (Proc α)
deriving DecidableEq

/-- One atomic step of process `i` (no-op on a finished or missing index):
read the recent marker; `SET NX` on the lock; perform the fetch; store a
non-null result under the marker; `DEL` the lock; or one 500ms poll of the
marker (at most 20, then return null). -/
def step {α : Type} (fr : Nat → Option α) (cfg : Config α) (i : Nat) : Config α :=
  match cfg.procs[i]? with
  | none => cfg
  | some p =>
    match p.pc with
    | .start =>
        match cfg.recently with
        | some r => { cfg with procs := cfg.procs.set i { p with pc := .done (some r) } }
        | none => { cfg with procs := cfg.procs.set i { p with pc := .tryLock } }
    | .tryLock =>
        if cfg.lock then
          { cfg with procs := cfg.procs.set i { p with pc := .polling 0 } }
        else
          { cfg with
            lock := true
            procs := cfg.procs.set i { p with pc := .fetching, everHeld := true } }
    | .fetching =>
        { cfg with procs :=
            cfg.procs.set i { p with pc := .storing (fr i), fetches := p.fetches + 1 } }
    | .storing d =>
        match d with
        | some v =>
            { cfg with
              recently := some v
              procs := cfg.procs.set i { p with pc := .releasing d } }
        | none => { cfg with procs := cfg.procs.set i { p with pc := .releasing d } }
    | .releasing d =>
        { cfg with lock := false, procs := cfg.procs.set i { p with pc := .done d } }
    | .polling j =>
        if 20 ≤ j then
          { cfg with procs := cfg.procs.set i { p with pc := .done none } }
        else
          match cfg.recently with
          | some r => { cfg with procs := cfg.procs.set i { p with pc := .done (some r) } }
          | none => { cfg with procs := cfg.procs.set i { p with pc := .polling (j + 1) } }
    | .done _ => cfg

def run {α : Type} (fr : Nat → Option α) (cfg : Config α) (sched : List Nat) :
    Config α :=
  sched.foldl (step fr) cfg

/-- `n` callers about to invoke `getMarketDataWithLock` on the same key,
marker empty, lock free. -/
def init (α : Type) (n : Nat) : Config α :=
  { lock := false, recently := none,
    procs := List.replicate n { pc := .start, fetches := 0, everHeld := false } }

/-- The critical section between winning the `SET NX` and the `DEL`. -/
def inRegion {α : Type} : Pc α → Bool
  | .fetching | .storing _ | .releasing _ => true
  | _ => false

/-- Program points at which this process has not yet performed its fetch. -/
def preFetch {α : Type} : Pc α → Bool
  | .start | .tryLock | .fetching | .polling _ => true
  | _ => false

def totalFetches {α : Type} (cfg : Config α) : Nat :=
  (cfg.procs.map (·.fetches)).sum

/-- The safety invariant: a process in the critical section implies the lock
is held; no two processes are in the critical section; each process fetches
at most once, has not fetched while before its fetch point, never fetches
without having held the lock, and polls at most 20 times. -/
def Inv {α : Type} (cfg : Config α) : Prop :=
  (∀ (i : Nat) (p : Proc α), cfg.procs[i]? = some p →
      inRegion p.pc = true → cfg.lock = true)
  ∧ (∀ (i j : Nat) (p q : Proc α), cfg.procs[i]? = some p →
      cfg.procs[j]? = some q → i ≠ j →
      inRegion p.pc = true → inRegion q.pc = true → False)
  ∧ (∀ p ∈ cfg.procs,
      p.fetches ≤ 1
      ∧ (preFetch p.pc = true → p.fetches = 0)
      ∧ (p.everHeld = false → p.fetches = 0 ∧ inRegion p.pc = false)
      ∧ (∀ j, p.pc = Pc.polling j → j ≤ 20))

end SingleFlight

/-! ## Auxiliary definitions and concrete sample inputs used by the
theorems below -/

/-- A store holding a cached metadata value `1` for mint `M` (SQLite tier,
unexpired) while the `refreshing:meta:M` marker is set in Redis. -/
def swrStore : CacheStore Nat :=
  { redisUp := true,
    redis := [(RKey.mark "refreshing:meta:M", 0, 100)],
    basicTbl := [("solana:token:meta:M", 1, 100)],
    enrichedTbl := [] }

/-- Like `swrStore` but with no refresh marker. -/
def swrStoreIdle : CacheStore Nat :=
  { redisUp := true, redis := [],
    basicTbl := [("solana:token:meta:M", 1, 100)], enrichedTbl := [] }

/-- A sample listing entry / raw token and two concrete enrichment-call
environments, used by several concrete runs below. -/
def sampleListing : ListingToken :=
  { chainId := "solana", tokenAddress := "A", url := "u", icon := "i",
    header := "h", description := "d", links := [] }

def sampleRaw : RawToken := toRawToken sampleListing

/-- Environment in which every batch-level metadata/supply fetch throws. -/
def envErr : EnrichEnv :=
  { batchFetch := fun _ => Except.error "boom",
    dex := fun _ _ => Except.ok none, now := 0 }

/-- Environment in which upstream calls succeed: no batch metadata/supply,
and every DexScreener search finds one pair with market cap 30000 whose
base token is address `A`. -/
def envOk : EnrichEnv :=
  { batchFetch := fun _ => Except.ok ([], []),
    dex := fun _ _ => Except.ok (some
      { baseToken := some { address := "A", name := "Tok", symbol := "TK" },
        quoteToken := none, priceUsd := 1, marketCap := 30000 }),
    now := 0 }

/-- The record that enriching `sampleRaw` in `envOk` produces. -/
def okRecord : EnrichedToken :=
  { tokenAddress := "A", url := "u", icon := "i", header := none,
    description := "d", links := [], name := "Tok", ticker := "TK",
    price := 1, totalSupply := 0, decimals := some 9, mintable := false,
    freezable := false, marketCap := 30000, enrichedAt := 0, success := true,
    hasDexData := true, error := none, filtered := some false }

/-- The snapshot that the concrete `envOk` run persists. -/
def c2snap : EnrichedSnapshot :=
  { timestamp := 0, originalTimestamp := 0, count := 1, successCount := 1,
    tokens := [okRecord], totalTokens := 1, maxTokens := MAX_TOKENS,
    minMarketCap := MIN_MARKET_CAP }

/-- The concatenation of the first `s` batches' results: batch `n` is
`tokensToProcess.slice(n*BATCH_SIZE, (n+1)*BATCH_SIZE)` processed with that
batch's upstream outcomes, exactly as the loop visits them. -/
def chunksConcat (env : EnrichEnv) : List RawToken → Nat → Nat → List EnrichedToken
  | _, _, 0 => []
  | rem, idx, s + 1 =>
      processBatch (rem.take BATCH_SIZE) (env.batchFetch idx) (env.dex idx) env.now
        ++ chunksConcat env (rem.drop BATCH_SIZE) (idx + 1) s

/-- 100 raw tokens with distinct addresses `T0`..`T99` (scenario C input). -/
def c3Tokens : List RawToken :=
  (List.range 100).map (fun i =>
    { tokenAddress := "T" ++ toString i, url := "", icon := "", header := "",
      description := "", links := [] })

/-- Scenario A's listing: five entries, three on `solana` of which the first
and last share address `X`, two on other chains. -/
def c7Listing : List ListingToken :=
  [ { chainId := "solana", tokenAddress := "X", url := "u1", icon := "",
      header := "", description := "", links := [] },
    { chainId := "ethereum", tokenAddress := "Z", url := "u2", icon := "",
      header := "", description := "", links := [] },
    { chainId := "solana", tokenAddress := "Y", url := "u3", icon := "",
      header := "", description := "", links := [] },
    { chainId := "bsc", tokenAddress := "W", url := "u4", icon := "",
      header := "", description := "", links := [] },
    { chainId := "solana", tokenAddress := "X", url := "u5", icon := "",
      header := "", description := "", links := [] } ]

/-- The coherence invariant of a Redis-enabled store: every table entry the
primary tier holds is also in the secondary tier, with the same value and
expiry. -/
def rcoherent {α : Type} (R : CacheStore α) : Prop :=
  ∀ (tb : DbTable) (k : String) (v : α) (e : Nat),
    kvFind R.redis (RKey.table tb k) = some (v, e) →
    kvFind (sqliteTbl R tb) k = some (v, e)

/-- One entry of a store-operation history, carrying its wall-clock time. -/
inductive StoreOp (α : Type) where
  | set (table : DbTable) (key : String) (v : α) (ttl : Nat) (time : Nat)
  | get (table : DbTable) (key : String) (time : Nat)

/-- Run a history of `dbSet`/`dbGet` operations left to right, collecting
each `get` result (`none` recorded for `set` steps). -/
def runOps {α : Type} (truthy : α → Bool) :
    CacheStore α → List (StoreOp α) → CacheStore α × List (Option α)
  | st, [] => (st, [])
  | st, .set t k v ttl time :: ops =>
      let res := runOps truthy (dbSet st time t k v ttl) ops
      (res.1, none :: res.2)
  | st, .get t k time :: ops =>
      let res := runOps truthy st ops
      (res.1, dbGet truthy st time t k :: res.2)

/-! ## Store lemmas -/

theorem find?_map_replace {κ α : Type} [BEq κ] [LawfulBEq κ] (k : κ) (v : α)
    (ex : Nat) (m : KV κ α) (h : m.any (fun e => e.1 == k) = true) :
    (m.map (fun e => if e.1 == k then (k, v, ex) else e)).find?
      (fun e => e.1 == k) = some (k, v, ex) := by
  induction m with
  | nil => simp at h
  | cons hd tl ih =>
    by_cases hk : (hd.1 == k) = true
    · simp [List.find?, hk]
    · simp only [List.any_cons, Bool.or_eq_true] at h
      rcases h with h | h
    
      · exact absurd h hk
      · simp only [List.map_cons, hk, if_neg, Bool.false_eq_true, ite_false]
        rw [List.find?_cons_of_neg _ (by simpa using hk)]
        exact ih h

theorem find?_append_single {κ α : Type} [BEq κ] [LawfulBEq κ] (k : κ) (v : α)
    (ex : Nat) (m : KV κ α) (h : m.any (fun e => e.1 == k) = false) :
    (m ++ [(k, v, ex)]).find? (fun e => e.1 == k) = some (k, v, ex) := by
  induction m with
  | nil => simp [List.find?]
  | cons hd tl ih =>
    simp only [List.any_cons, Bool.or_eq_false_iff] at h
    rw [List.cons_append, List.find?_cons_of_neg _ (by simp [h.1])]
    exact ih h.2

theorem kvFind_kvSet_self {κ α : Type} [BEq κ] [LawfulBEq κ] (m : KV κ α)
    (k : κ) (v : α) (ex : Nat) : kvFind (kvSet m k v ex) k = some (v, ex) := by
  unfold kvSet kvFind
  split
  · rename_i h
    rw [find?_map_replace k v ex m h]
    rfl
  · rename_i h
    rw [find?_append_single k v ex m (Bool.eq_false_iff.mpr h)]
    rfl

theorem kvGetLive_kvSet_self {κ α : Type} [BEq κ] [LawfulBEq κ] (m : KV κ α)
    (k : κ) (v : α) (ex now : Nat) :
    kvGetLive (kvSet m k v ex) k now = if now < ex then some v else none := by
  unfold kvGetLive
  rw [kvFind_kvSet_self]

/-- C4. Store round-trip: after `dbSet(table, key, value, ttlSeconds)` with a
positive TTL, `dbGet(table, key)` returns the written value at any time
before `now + ttl` and `null` at any time from `now + ttl` on — for every
starting store, with or without the Redis tier, and for every JS-truthiness
shape of the payload. -/
theorem claim_C4_store_roundtrip {α : Type} (truthy : α → Bool)
    (st : CacheStore α) (now : Nat) (table : DbTable) (key : String) (v : α)
    (ttl : Nat) (_httl : 0 < ttl) :
    (∀ t2, t2 < now + ttl →
      dbGet truthy (dbSet st now table key v ttl) t2 table key = some v)
  ∧ (∀ t2, now + ttl ≤ t2 →
      dbGet truthy (dbSet st now table key v ttl) t2 table key = none) := by
  constructor
  · intro t2 ht
    cases table <;>
      by_cases hr : st.redisUp <;>
        simp [dbGet, dbSet, redisGet, redisSet, sqliteTbl, hr,
          kvGetLive_kvSet_self, ht]
  · intro t2 ht
    cases table <;>
      by_cases hr : st.redisUp <;>
        simp [dbGet, dbSet, redisGet, redisSet, sqliteTbl, hr,
          kvGetLive_kvSet_self, Nat.not_lt.mpr ht]

/-- C4 witness: a concrete write with TTL 5 at time 0 reads back at time 3
and is gone at time 7. -/
theorem claim_C4_store_roundtrip_witness :
    dbGet (fun _ => true) (dbSet ⟨true, [], [], []⟩ 0 .basic_tokens "k" (42 : Nat) 5)
        3 .basic_tokens "k" = some 42
  ∧ dbGet (fun _ => true) (dbSet ⟨true, [], [], []⟩ 0 .basic_tokens "k" (42 : Nat) 5)
        7 .basic_tokens "k" = none :=
  ⟨(claim_C4_store_roundtrip (fun _ => true) ⟨true, [], [], []⟩ 0 .basic_tokens "k" 42 5
      (by decide)).1 3 (by decide),
   (claim_C4_store_roundtrip (fun _ => true) ⟨true, [], [], []⟩ 0 .basic_tokens "k" 42 5
      (by decide)).2 7 (by decide)⟩

/-! ## C5: conditional fetch on 304 -/

/-- C5. On a 304 response with a cached body present under
`dex:latest:body`, `fetchDexLatest` returns that cached body and leaves the
store untouched (neither the ETag entry nor the body entry is rewritten);
on a 304 with no cached body, it throws the error to its caller instead of
returning empty data.  "Present" is the code's own notion `if (cached)`:
`dbGet` returns a truthy value. -/
theorem claim_C5_fetch_304 {α : Type} (truthy : α → Bool) (st : CacheStore α)
    (now : Nat) :
    (∀ v, dbGet truthy st now .basic_tokens "dex:latest:body" = some v →
      truthy v = true →
      fetchDexLatest truthy st now .notModified = (.ok v, st))
  ∧ (dbGet truthy st now .basic_tokens "dex:latest:body" = none →
      fetchDexLatest truthy st now .notModified =
        (.error "Request failed with status code 304", st)) := by
  constructor
  · intro v hv htr
    simp [fetchDexLatest, hv, htr]
  · intro hv
    simp [fetchDexLatest, hv]

/-- C5 witness: concrete 304 handling with a cached body `7` (returned,
store unchanged) and with an empty cache (error propagated). -/
theorem claim_C5_fetch_304_witness :
    fetchDexLatest (fun _ => true) ⟨false, [], [("dex:latest:body", 7, 10)], []⟩ 0
        (DexListingResp.notModified (α := Nat)) =
      (.ok 7, ⟨false, [], [("dex:latest:body", 7, 10)], []⟩)
  ∧ fetchDexLatest (fun _ => true) ⟨false, [], [], []⟩ 0
        (DexListingResp.notModified (α := Nat)) =
      (.error "Request failed with status code 304", ⟨false, [], [], []⟩) :=
  ⟨(claim_C5_fetch_304 (fun _ => true) ⟨false, [], [("dex:latest:body", 7, 10)], []⟩ 0).1
      7 (by decide) rfl,
   (claim_C5_fetch_304 (fun _ => true) ⟨false, [], [], []⟩ 0).2 (by decide)⟩

/-! ## C6: stale-while-revalidate with a refresh in progress -/

/-- C6 counterexample: with a cached value (`1`) present AND the
refresh-in-progress marker set, `getHeliusMetaCached` does NOT return the
stale cached value without fetching — it performs a synchronous upstream
fetch (`syncFetched = true`) and returns the fetched value `2`, because the
branch condition is `hit && !isRefreshing` and the fall-through path
(`// No cache or refreshing, fetch fresh`) fetches. -/
theorem claim_C6_swr_counterexample :
    dbGet (fun _ => true) swrStore 0 .basic_tokens "solana:token:meta:M" = some 1
  ∧ redisExists swrStore (RKey.mark "refreshing:meta:M") 0 = true
  ∧ (getHeliusMetaCached (fun _ => true) swrStore 0 "M" (some 2)).syncFetched = true
  ∧ (getHeliusMetaCached (fun _ => true) swrStore 0 "M" (some 2)).value = some 2 := by
  decide

/-- C6 (amended): when the refresh-in-progress marker is observed,
`getHeliusMetaCached` performs a synchronous upstream fetch and returns its
result, even if a cached value exists; the stale cached value is returned
without any synchronous fetch (scheduling a background refresh) only when a
truthy cached value exists and no refresh is marked in progress. -/
theorem claim_C6_swr_refresh_amended {α : Type} (truthy : α → Bool)
    (st : CacheStore α) (now : Nat) (mint : String) (fresh : Option α) :
    (redisExists st (RKey.mark ("refreshing:meta:" ++ mint)) now = true →
      (getHeliusMetaCached truthy st now mint fresh).syncFetched = true ∧
      (getHeliusMetaCached truthy st now mint fresh).value = fresh)
  ∧ (∀ v, dbGet truthy st now .basic_tokens ("solana:token:meta:" ++ mint) = some v →
      truthy v = true →
      redisExists st (RKey.mark ("refreshing:meta:" ++ mint)) now = false →
      getHeliusMetaCached truthy st now mint fresh =
        { value := some v, syncFetched := false, bgRefresh := true, store := st }) := by
  constructor
  · intro href
    cases fresh with
    | some m =>
        by_cases htr : truthy m = true <;>
          simp [getHeliusMetaCached, href, htr]
    | none => simp [getHeliusMetaCached, href]
  · intro v hv htr href
    simp [getHeliusMetaCached, hv, htr, href]

/-- C6 witness for the amended claim: both branches at concrete stores —
marker set (synchronous fetch of `2`), marker clear (stale `1` returned,
background refresh scheduled, no synchronous fetch). -/
theorem claim_C6_swr_refresh_amended_witness :
    ((getHeliusMetaCached (fun _ => true) swrStore 0 "M" (some 2)).syncFetched = true
      ∧ (getHeliusMetaCached (fun _ => true) swrStore 0 "M" (some 2)).value = some 2)
  ∧ getHeliusMetaCached (fun _ => true) swrStoreIdle 0 "M" (some 2) =
      { value := some 1, syncFetched := false, bgRefresh := true, store := swrStoreIdle } :=
  ⟨(claim_C6_swr_refresh_amended (fun _ => true) swrStore 0 "M" (some 2)).1 (by decide),
   (claim_C6_swr_refresh_amended (fun _ => true) swrStoreIdle 0 "M" (some 2)).2
      1 (by decide) rfl (by decide)⟩

/-! ## Enrichment lemmas -/

theorem enrichTokenWithData_tokenAddress (t : RawToken) (md : Option HeliusMeta)
    (s : Option TokenSupply) (df : Except String (Option DexPair)) (now : Nat) :
    (enrichTokenWithData t md s df now).tokenAddress = t.tokenAddress := by
  cases df with
  | error msg => rfl
  | ok dexData =>
    simp only [enrichTokenWithData]
    split <;> rfl

/-- Every `enrichTokenWithData` record carries a `filtered` field, and it is
`false` exactly on the qualification-passing branch. -/
theorem enrichTokenWithData_filtered_cases (t : RawToken) (md : Option HeliusMeta)
    (s : Option TokenSupply) (df : Except String (Option DexPair)) (now : Nat) :
    (enrichTokenWithData t md s df now).filtered = some true ∨
    ((enrichTokenWithData t md s df now).filtered = some false ∧
      MIN_MARKET_CAP ≤ (enrichTokenWithData t md s df now).marketCap ∧
      (enrichTokenWithData t md s df now).mintable = false ∧
      (enrichTokenWithData t md s df now).freezable = false) := by
  cases df with
  | error msg => left; rfl
  | ok dexData =>
    simp only [enrichTokenWithData]
    split
    · left; rfl
    · rename_i h
      push_neg at h
      right
      exact ⟨rfl, h.1, Bool.eq_false_iff.mpr h.2.1, Bool.eq_false_iff.mpr h.2.2⟩

theorem processBatch_nil (bf : Except String (List (Option HeliusMeta) × List (Option TokenSupply)))
    (dex : String → Except String (Option DexPair)) (now : Nat) :
    processBatch [] bf dex now = [] := by
  cases bf with
  | error msg => rfl
  | ok p => obtain ⟨bm, bs⟩ := p; rfl

/-- Every record produced by `processBatch` is either a batch-level error
record for one of the input tokens, or the `enrichTokenWithData` result for
one of the input tokens. -/
theorem processBatch_mem_cases {tokens : List RawToken}
    {bf : Except String (List (Option HeliusMeta) × List (Option TokenSupply))}
    {dex : String → Except String (Option DexPair)} {now : Nat}
    {r : EnrichedToken} (hr : r ∈ processBatch tokens bf dex now) :
    (∃ t msg, t ∈ tokens ∧ bf = Except.error msg ∧ r = batchErrorRecord t msg now) ∨
    (∃ t md s df, t ∈ tokens ∧ r = enrichTokenWithData t md s df now) := by
  unfold processBatch at hr
  cases bf with
  | error msg =>
    obtain ⟨t, ht, rfl⟩ := List.mem_map.mp hr
    exact Or.inl ⟨t, msg, ht, rfl, rfl⟩
  | ok p =>
    obtain ⟨bm, bs⟩ := p
    simp only at hr
    obtain ⟨t, ht, rfl⟩ := List.mem_map.mp hr
    exact Or.inr ⟨t, _, _, _, ht, rfl⟩

/-- Any pointwise property established for all possible `processBatch`
outputs holds for every record accumulated by the enrichment loop. -/
theorem enrichLoop_forall (env : EnrichEnv) (P : EnrichedToken → Prop)
    (hP : ∀ tokens idx, ∀ r ∈ processBatch tokens (env.batchFetch idx) (env.dex idx) env.now, P r) :
    ∀ (rem : List RawToken) (idx : Nat) (acc : List EnrichedToken),
      (∀ r ∈ acc, P r) → ∀ r ∈ enrichLoop env rem idx acc, P r := by
  suffices h : ∀ (n : Nat) (rem : List RawToken) (idx : Nat) (acc : List EnrichedToken),
      rem.length ≤ n → (∀ r ∈ acc, P r) → ∀ r ∈ enrichLoop env rem idx acc, P r by
    intro rem idx acc hacc
    exact h rem.length rem idx acc le_rfl hacc
  intro n
  induction n with
  | zero =>
    intro rem idx acc hlen hacc r hr
    rw [List.length_eq_zero.mp (Nat.le_zero.mp hlen)] at hr
    simp only [enrichLoop] at hr
    exact hacc r hr
  | succ n ih =>
    intro rem idx acc hlen hacc r hr
    cases rem with
    | nil =>
      simp only [enrichLoop] at hr
      exact hacc r hr
    | cons t rest =>
      simp only [enrichLoop] at hr
      have hacc2 : ∀ x ∈ acc ++ processBatch ((t :: rest).take BATCH_SIZE)
          (env.batchFetch idx) (env.dex idx) env.now, P x := by
        intro x hx
        rcases List.mem_append.mp hx with hx | hx
        · exact hacc x hx
        · exact hP _ idx x hx
      split at hr
      · exact hacc2 r hr
      · refine ih ((t :: rest).drop BATCH_SIZE) (idx + 1) _ ?_ hacc2 r hr
        simp only [List.length_drop, List.length_cons, BATCH_SIZE] at *
        omega

/-- C1 counterexample: a batch-level enrichment failure (the catch of
`processBatch`) yields a record with `marketCap = 0 < MIN_MARKET_CAP`,
`mintable = freezable = false`, and NO `filtered` field (`none`, i.e. not
`true`), violating the claimed invariant that `filtered == true` whenever
`marketCap < MIN_MARKET_CAP`, including on batch-level failure. -/
theorem claim_C1_qualification_counterexample :
    ((processBatch
        [{ tokenAddress := "A", url := "u", icon := "i", header := "h",
           description := "d", links := [] }]
        (Except.error "network error") (fun _ => Except.ok none) 0).map
      (fun r => (r.marketCap, r.mintable, r.freezable, r.filtered)))
      = [((0 : Rat), false, false, (none : Option Bool))]
  ∧ (0 : Rat) < MIN_MARKET_CAP := by
  constructor
  · rfl
  · decide

/-- C1 (amended): for every record in any output of
`enrichTokensBatchOptimized`: a record with `filtered == false` meets all
three qualification conditions; a record violating a qualification
condition never has `filtered == false`; but records from a failed batch
carry no `filtered` field at all (`none`) — such records have
`marketCap = 0`, `success = false`, and an `error` field — rather than
`filtered == true` as the original claim required. -/
theorem claim_C1_qualification_amended (tokens : List RawToken)
    (maxTokens : Option Nat) (env : EnrichEnv) :
    ∀ r ∈ enrichTokensBatchOptimized tokens maxTokens env,
      ((r.filtered = some false →
          MIN_MARKET_CAP ≤ r.marketCap ∧ r.mintable = false ∧ r.freezable = false)
      ∧ (r.filtered = none →
          r.marketCap = 0 ∧ r.success = false ∧ r.error.isSome = true)
      ∧ ((r.marketCap < MIN_MARKET_CAP ∨ r.mintable = true ∨ r.freezable = true) →
          r.filtered ≠ some false)) := by
  intro r hr
  unfold enrichTokensBatchOptimized at hr
  have hmem := enrichLoop_forall env
    (fun x =>
      (x.filtered = some false →
          MIN_MARKET_CAP ≤ x.marketCap ∧ x.mintable = false ∧ x.freezable = false)
      ∧ (x.filtered = none →
          x.marketCap = 0 ∧ x.success = false ∧ x.error.isSome = true)
      ∧ ((x.marketCap < MIN_MARKET_CAP ∨ x.mintable = true ∨ x.freezable = true) →
          x.filtered ≠ some false))
    ?_ _ 0 [] (by intro x hx; simp at hx) r hr
  · exact hmem
  · intro toks idx x hx
    rcases processBatch_mem_cases hx with ⟨t, msg, _, _, rfl⟩ | ⟨t, md, s, df, _, rfl⟩
    · refine ⟨?_, ?_, ?_⟩
      · intro hf; exact absurd hf (by simp [batchErrorRecord])
      · intro _; exact ⟨rfl, rfl, rfl⟩
      · intro _; simp [batchErrorRecord]
    · rcases enrichTokenWithData_filtered_cases t md s df env.now with hcase | ⟨hf, hq1, hq2, hq3⟩
      · refine ⟨?_, ?_, ?_⟩
        · intro hf; rw [hcase] at hf; exact absurd hf (by simp)
        · intro hf; rw [hcase] at hf; exact absurd hf (by simp)
        · intro _; rw [hcase]; simp
      · refine ⟨?_, ?_, ?_⟩
        · intro _; exact ⟨hq1, hq2, hq3⟩
        · intro hfn; rw [hf] at hfn; exact absurd hfn (by simp)
        · intro hbad
          rcases hbad with hbad | hbad | hbad
          · exact absurd hq1 (not_le.mpr hbad)
          · rw [hq2] at hbad; exact absurd hbad (by simp)
          · rw [hq3] at hbad; exact absurd hbad (by simp)

/-- Concrete run: enriching the one-token list in `envErr` (the batch fetch
throws) yields exactly the batch-level error record. -/
theorem enrichRunErr :
    enrichTokensBatchOptimized [sampleRaw] none envErr =
      [batchErrorRecord sampleRaw "boom" 0] := by
  rw [enrichTokensBatchOptimized]
  rw [enrichLoop]
  simp +decide [enrichLoop, processBatch, countValid, isValidToken, envErr,
    batchErrorRecord, sampleRaw, sampleListing, toRawToken, BATCH_SIZE, MAX_TOKENS]

/-- C1 witness: the amended theorem applied to the concrete batch-failure
record produced by running the pipeline in `envErr`. -/
theorem claim_C1_qualification_amended_witness :
    (batchErrorRecord sampleRaw "boom" 0).marketCap = 0
  ∧ (batchErrorRecord sampleRaw "boom" 0).success = false
  ∧ (batchErrorRecord sampleRaw "boom" 0).error.isSome = true :=
  (claim_C1_qualification_amended [sampleRaw] none envErr
    (batchErrorRecord sampleRaw "boom" 0)
    (by rw [enrichRunErr]; exact List.mem_singleton_self _)).2.1 rfl

/-- C10. When the batch-level parallel metadata/supply fetch throws, every
token of the batch yields a record with `success = false`, zero numeric
fields, and NO `filtered` field (`none`); the post-processing predicate
`!token.filtered` classifies such records as unfiltered, so a concrete run
of `fetchEnrichAndCache` whose batch fetch throws persists a snapshot
containing a record with `marketCap = 0`. -/
theorem claim_C10_batch_failure_unfiltered :
    (∀ (tokens : List RawToken) (msg : String)
        (dex : String → Except String (Option DexPair)) (now : Nat),
      ∀ r ∈ processBatch tokens (Except.error msg) dex now,
        r.success = false ∧ r.price = 0 ∧ r.totalSupply = 0 ∧ r.marketCap = 0 ∧
        r.filtered = none ∧ jsNotFiltered r = true)
  ∧ ((fetchEnrichAndCache [sampleListing] none true envErr 0).map
        (fun s => s.tokens.map (fun r => (r.marketCap, r.filtered, r.success)))
      = some [((0 : Rat), (none : Option Bool), false)]) := by
  constructor
  · intro tokens msg dex now r hr
    unfold processBatch at hr
    obtain ⟨t, _, rfl⟩ := List.mem_map.mp hr
    exact ⟨rfl, rfl, rfl, rfl, rfl, rfl⟩
  · have hded : dedupeSolana [sampleListing] = [sampleListing] := rfl
    rw [fetchEnrichAndCache, hded]
    simp only [List.isEmpty_cons, List.map_cons, List.map_nil, if_true, if_false,
      Bool.false_eq_true, ite_false, ite_true]
    have hraw : toRawToken sampleListing = sampleRaw := rfl
    rw [hraw, enrichRunErr]
    simp [jsNotFiltered, batchErrorRecord, List.mergeSort_singleton, MAX_TOKENS]

/-- C10 witness: part one of the theorem applied to the concrete batch of
one token with a thrown batch fetch. -/
theorem claim_C10_batch_failure_unfiltered_witness :
    (batchErrorRecord sampleRaw "era" 3).filtered = none
  ∧ jsNotFiltered (batchErrorRecord sampleRaw "era" 3) = true :=
  have h := claim_C10_batch_failure_unfiltered.1 [sampleRaw] "era"
    (fun _ => Except.ok none) 3 (batchErrorRecord sampleRaw "era" 3) (by decide)
  ⟨h.2.2.2.2.1, h.2.2.2.2.2⟩

/-! ## C2: persisted snapshot properties -/

theorem marketCapDescLe_trans : ∀ a b c : EnrichedToken,
    marketCapDescLe a b = true → marketCapDescLe b c = true →
    marketCapDescLe a c = true := by
  intro a b c h1 h2
  simp only [marketCapDescLe, decide_eq_true_eq] at *
  exact le_trans h2 h1

theorem marketCapDescLe_total : ∀ a b : EnrichedToken,
    (marketCapDescLe a b || marketCapDescLe b a) = true := by
  intro a b
  simp only [marketCapDescLe, Bool.or_eq_true, decide_eq_true_eq]
  exact le_total b.marketCap a.marketCap

/-- C2. Every snapshot persisted by a run of `fetchEnrichAndCache` that
reaches post-processing contains only records whose `filtered` field is not
set to `true`, is sorted by `marketCap` in descending order, and has at most
`MAX_TOKENS` (50) records. -/
theorem claim_C2_snapshot_properties (allTokens : List ListingToken)
    (maxTokens : Option Nat) (heliusKey : Bool) (env : EnrichEnv) (now : Nat)
    (snap : EnrichedSnapshot)
    (h : fetchEnrichAndCache allTokens maxTokens heliusKey env now = some snap) :
    snap.tokens.all jsNotFiltered = true
  ∧ List.Pairwise (fun a b => b.marketCap ≤ a.marketCap) snap.tokens
  ∧ snap.tokens.length ≤ MAX_TOKENS := by
  rw [fetchEnrichAndCache] at h
  split at h
  · exact absurd h (by simp)
  · split at h
    · injection h with h2
      subst h2
      refine ⟨?_, ?_, ?_⟩
      · rw [List.all_eq_true]
        intro r hr
        have h1 := (List.take_sublist _ _).subset hr
        have h2 := (List.mergeSort_perm _ marketCapDescLe).mem_iff.mp h1
        exact List.of_mem_filter h2
      · have hs := List.sorted_mergeSort marketCapDescLe_trans marketCapDescLe_total
          ((enrichTokensBatchOptimized ((dedupeSolana allTokens).map toRawToken)
              maxTokens env).filter jsNotFiltered)
        have hp := List.Pairwise.sublist (List.take_sublist MAX_TOKENS _) hs
        exact hp.imp (fun hab => by
          simpa [marketCapDescLe, decide_eq_true_eq] using hab)
      · simp [List.length_take]
    · exact absurd h (by simp)

/-- Concrete run: enriching the one-token list in `envOk` yields exactly the
qualifying record `okRecord`. -/
theorem enrichRunOk :
    enrichTokensBatchOptimized [sampleRaw] none envOk = [okRecord] := by
  rw [enrichTokensBatchOptimized]
  rw [enrichLoop]
  simp +decide [enrichLoop, processBatch, enrichTokenWithData, buildLookup,
    jsOr, jsTotalSupply, jsDecimalsField, countValid, isValidToken, envOk,
    sampleRaw, sampleListing, toRawToken, okRecord, BATCH_SIZE, MAX_TOKENS,
    MIN_MARKET_CAP]

/-- Concrete run: `fetchEnrichAndCache` on the one-token listing in `envOk`
persists `c2snap`. -/
theorem fetchRunOk :
    fetchEnrichAndCache [sampleListing] none true envOk 0 = some c2snap := by
  have hded : dedupeSolana [sampleListing] = [sampleListing] := rfl
  rw [fetchEnrichAndCache, hded]
  simp only [List.isEmpty_cons, List.map_cons, List.map_nil, Bool.false_eq_true,
    ite_false, ite_true]
  have hraw : toRawToken sampleListing = sampleRaw := rfl
  rw [hraw, enrichRunOk]
  simp +decide [jsNotFiltered, okRecord, List.mergeSort_singleton, MAX_TOKENS,
    c2snap]

/-- C2 witness: the theorem applied to the concrete `envOk` run. -/
theorem claim_C2_snapshot_properties_witness :
    fetchEnrichAndCache [sampleListing] none true envOk 0 = some c2snap
  ∧ (c2snap.tokens.all jsNotFiltered = true
    ∧ List.Pairwise (fun a b => b.marketCap ≤ a.marketCap) c2snap.tokens
    ∧ c2snap.tokens.length ≤ MAX_TOKENS) :=
  ⟨fetchRunOk,
   claim_C2_snapshot_properties [sampleListing] none true envOk 0 c2snap fetchRunOk⟩

/-! ## C3: batch order and early exit -/

theorem chunksConcat_nil (env : EnrichEnv) :
    ∀ (s idx : Nat), chunksConcat env [] idx s = [] := by
  intro s
  induction s with
  | zero => intro idx; rfl
  | succ s ih =>
    intro idx
    simp only [chunksConcat, List.take_nil, List.drop_nil, processBatch_nil,
      List.nil_append]
    exact ih (idx + 1)

theorem countValid_append (a b : List EnrichedToken) :
    countValid (a ++ b) = countValid a + countValid b := by
  simp [countValid, List.filter_append]

/-- The enrichment loop stops after at most `s` further batches as soon as
the accumulated qualifying count of those batches reaches `MAX_TOKENS`. -/
theorem enrichLoop_stops (env : EnrichEnv) :
    ∀ (s : Nat) (rem : List RawToken) (idx : Nat) (acc : List EnrichedToken),
      countValid acc < MAX_TOKENS →
      MAX_TOKENS ≤ countValid (acc ++ chunksConcat env rem idx s) →
      ∃ k, k ≤ s ∧ enrichLoop env rem idx acc = acc ++ chunksConcat env rem idx k := by
  intro s
  induction s with
  | zero =>
    intro rem idx acc h1 h2
    rw [chunksConcat, List.append_nil] at h2
    omega
  | succ s ih =>
    intro rem idx acc h1 h2
    cases rem with
    | nil =>
      rw [chunksConcat_nil, List.append_nil] at h2
      omega
    | cons t rest =>
      rw [chunksConcat, countValid_append, countValid_append,
        ← Nat.add_assoc, ← countValid_append] at h2
      rw [enrichLoop]
      split
      · rename_i hstop
        refine ⟨1, by omega, ?_⟩
        rw [chunksConcat, chunksConcat, List.append_nil]
      · rename_i hstop
        push_neg at hstop
        obtain ⟨k, hk, heq⟩ := ih ((t :: rest).drop BATCH_SIZE) (idx + 1)
          (acc ++ processBatch ((t :: rest).take BATCH_SIZE)
            (env.batchFetch idx) (env.dex idx) env.now)
          hstop (by rw [countValid_append]; omega)
        refine ⟨k + 1, by omega, ?_⟩
        rw [heq, chunksConcat, List.append_assoc]

theorem processBatch_map_addr (tokens : List RawToken)
    (bf : Except String (List (Option HeliusMeta) × List (Option TokenSupply)))
    (dex : String → Except String (Option DexPair)) (now : Nat) :
    (processBatch tokens bf dex now).map (·.tokenAddress)
      = tokens.map (·.tokenAddress) := by
  cases bf with
  | error msg =>
    simp [processBatch, batchErrorRecord, List.map_map, Function.comp]
  | ok p =>
    obtain ⟨bm, bs⟩ := p
    simp only [processBatch, List.map_map]
    apply List.map_congr_left
    intro t _
    exact enrichTokenWithData_tokenAddress t _ _ _ _

theorem chunksConcat_map_addr (env : EnrichEnv) :
    ∀ (s : Nat) (rem : List RawToken) (idx : Nat),
      (chunksConcat env rem idx s).map (·.tokenAddress)
        = (rem.take (BATCH_SIZE * s)).map (·.tokenAddress) := by
  intro s
  induction s with
  | zero => intro rem idx; simp [chunksConcat]
  | succ s ih =>
    intro rem idx
    rw [chunksConcat, List.map_append, processBatch_map_addr, ih,
      show BATCH_SIZE * (s + 1) = BATCH_SIZE + BATCH_SIZE * s by ring,
      List.take_add, List.map_append]

/-- C3. Early exit: `enrichTokensBatchOptimized` processes `BATCH_SIZE = 20`
batches strictly in input order; for a 100-token input whose accumulated
count of records with `marketCap >= MIN_MARKET_CAP`, not mintable and not
freezable reaches `MAX_TOKENS` within the first 3 batches, the loop stops
after at most 3 batches, so every output record stems from the first 60
tokens and none of the remaining 40 addresses appears in the output in any
form. -/
theorem claim_C3_early_exit (tokens : List RawToken) (env : EnrichEnv)
    (_h100 : tokens.length = 100)
    (hnodup : (tokens.map (·.tokenAddress)).Nodup)
    (hcount : MAX_TOKENS ≤ countValid (chunksConcat env tokens 0 3)) :
    ∃ k, k ≤ 3 ∧ enrichTokensBatchOptimized tokens none env = chunksConcat env tokens 0 k
  ∧ ∀ r ∈ enrichTokensBatchOptimized tokens none env,
      r.tokenAddress ∈ (tokens.take 60).map (·.tokenAddress) ∧
      r.tokenAddress ∉ (tokens.drop 60).map (·.tokenAddress) := by
  have hrun : enrichTokensBatchOptimized tokens none env = enrichLoop env tokens 0 [] := rfl
  obtain ⟨k, hk, heq⟩ := enrichLoop_stops env 3 tokens 0 []
    (by simp [countValid]; decide) (by simpa using hcount)
  rw [List.nil_append] at heq
  refine ⟨k, hk, by rw [hrun, heq], ?_⟩
  intro r hr
  rw [hrun, heq] at hr
  have haddr : r.tokenAddress ∈ (chunksConcat env tokens 0 k).map (·.tokenAddress) :=
    List.mem_map_of_mem _ hr
  rw [chunksConcat_map_addr] at haddr
  have hsub : (tokens.take (BATCH_SIZE * k)).Sublist (tokens.take 60) := by
    rw [show (60 : Nat) = BATCH_SIZE * k + (60 - BATCH_SIZE * k) by
        simp [BATCH_SIZE]; omega,
      List.take_add]
    exact (tokens.take (BATCH_SIZE * k)).sublist_append_left _
  have hmem60 : r.tokenAddress ∈ (tokens.take 60).map (·.tokenAddress) :=
    (hsub.map _).subset haddr
  refine ⟨hmem60, ?_⟩
  intro hbad
  have hsplit : tokens.map (·.tokenAddress)
      = (tokens.take 60).map (·.tokenAddress) ++ (tokens.drop 60).map (·.tokenAddress) := by
    rw [← List.map_append, List.take_append_drop]
  rw [hsplit] at hnodup
  exact (List.disjoint_of_nodup_append hnodup) hmem60 hbad

/-- C3 witness: in `envOk` every enriched record qualifies (market cap
30000, not mintable, not freezable), so the count after 3 batches is 60 ≥ 50
and the theorem applies to the concrete 100-token input. -/
theorem claim_C3_early_exit_witness :
    (c3Tokens.length = 100
      ∧ (c3Tokens.map (·.tokenAddress)).Nodup
      ∧ MAX_TOKENS ≤ countValid (chunksConcat envOk c3Tokens 0 3))
  ∧ (∃ k, k ≤ 3
      ∧ enrichTokensBatchOptimized c3Tokens none envOk = chunksConcat envOk c3Tokens 0 k
      ∧ ∀ r ∈ enrichTokensBatchOptimized c3Tokens none envOk,
          r.tokenAddress ∈ (c3Tokens.take 60).map (·.tokenAddress) ∧
          r.tokenAddress ∉ (c3Tokens.drop 60).map (·.tokenAddress)) :=
  have h1 : c3Tokens.length = 100 := by decide
  have h2 : (c3Tokens.map (·.tokenAddress)).Nodup := by decide
  have h3 : MAX_TOKENS ≤ countValid (chunksConcat envOk c3Tokens 0 3) := by decide
  ⟨⟨h1, h2, h3⟩, claim_C3_early_exit c3Tokens envOk h1 h2 h3⟩

/-! ## C7: listing chain filter and dedupe -/

/-- One `Map.set` step preserves the dedupe invariants: keys are distinct,
keys are exactly the addresses seen so far, each entry holds the last
occurrence of its address, and each entry's value carries its key. -/
theorem mapInsert_step (m : List (String × ListingToken)) (p : List ListingToken)
    (t : ListingToken)
    (h1 : (m.map (·.1)).Nodup)
    (h2 : ∀ a, a ∈ m.map (·.1) ↔ a ∈ p.map (·.tokenAddress))
    (h3 : ∀ e ∈ m, (p.filter (fun u => u.tokenAddress == e.1)).getLast? = some e.2)
    (h4 : ∀ e ∈ m, e.2.tokenAddress = e.1) :
    ((mapInsert m t.tokenAddress t).map (·.1)).Nodup
    ∧ (∀ a, a ∈ (mapInsert m t.tokenAddress t).map (·.1) ↔
        a ∈ (p ++ [t]).map (·.tokenAddress))
    ∧ (∀ e ∈ mapInsert m t.tokenAddress t,
        ((p ++ [t]).filter (fun u => u.tokenAddress == e.1)).getLast? = some e.2)
    ∧ (∀ e ∈ mapInsert m t.tokenAddress t, e.2.tokenAddress = e.1) := by
  unfold mapInsert
  by_cases hany : m.any (fun e => e.1 == t.tokenAddress) = true
  · rw [if_pos hany]
    have hkeys : (m.map (fun e =>
        if e.1 == t.tokenAddress then (t.tokenAddress, t) else e)).map (·.1)
        = m.map (·.1) := by
      rw [List.map_map]
      apply List.map_congr_left
      intro e _
      cases hbe : (e.1 == t.tokenAddress) with
      | true => simp only [Function.comp, hbe, if_true]; exact (beq_iff_eq.mp hbe).symm
      | false => simp [Function.comp, hbe]
    have htmem : t.tokenAddress ∈ m.map (·.1) := by
      rw [List.any_eq_true] at hany
      obtain ⟨e, he, heq⟩ := hany
      exact List.mem_map.mpr ⟨e, he, beq_iff_eq.mp heq⟩
    refine ⟨?_, ?_, ?_, ?_⟩
    · rw [hkeys]; exact h1
    · intro a
      rw [hkeys, List.map_append]
      constructor
      · intro ha
        exact List.mem_append_left _ ((h2 a).mp ha)
      · intro ha
        rcases List.mem_append.mp ha with ha | ha
        · exact (h2 a).mpr ha
        · simp only [List.map_cons, List.map_nil, List.mem_singleton] at ha
          rw [ha]; exact htmem
    · intro ee hee
      obtain ⟨e, he, rfl⟩ := List.mem_map.mp hee
      cases hbe : (e.1 == t.tokenAddress) with
      | true =>
        rw [if_pos rfl, List.filter_append]
        rw [show List.filter
            (fun u => u.tokenAddress == (t.tokenAddress, t).1) [t] = [t] by simp]
        exact List.getLast?_concat _
      | false =>
        rw [if_neg (by simp), List.filter_append]
        have hsymm : (t.tokenAddress == e.1) = false := by
          rw [beq_eq_false_iff_ne] at hbe ⊢
          exact fun hh => hbe hh.symm
        rw [show List.filter (fun u => u.tokenAddress == e.1) [t] = [] by
          simp [List.filter_cons, hsymm]]
        rw [List.append_nil]
        exact h3 e he
    · intro ee hee
      obtain ⟨e, he, rfl⟩ := List.mem_map.mp hee
      cases hbe : (e.1 == t.tokenAddress) with
      | true => rw [if_pos rfl]
      | false => rw [if_neg (by simp)]; exact h4 e he
  · rw [if_neg hany]
    have hall : ∀ e ∈ m, (e.1 == t.tokenAddress) = false := by
      intro e he
      cases hbe : (e.1 == t.tokenAddress) with
      | true => exact absurd (List.any_eq_true.mpr ⟨e, he, hbe⟩) hany
      | false => rfl
    have htnot : t.tokenAddress ∉ m.map (·.1) := by
      intro hc
      obtain ⟨e, he, heq⟩ := List.mem_map.mp hc
      have hfe := hall e he
      rw [heq, beq_self_eq_true] at hfe
      simp at hfe
    refine ⟨?_, ?_, ?_, ?_⟩
    · rw [List.map_append]
      refine List.Nodup.append h1 (List.nodup_singleton _) ?_
      intro a ha hb
      simp only [List.map_cons, List.map_nil, List.mem_singleton] at hb
      exact htnot (hb ▸ ha)
    · intro a
      rw [List.map_append, List.map_append]
      constructor
      · intro ha
        rcases List.mem_append.mp ha with ha | ha
        · exact List.mem_append_left _ ((h2 a).mp ha)
        · exact List.mem_append_right _ (by simpa using ha)
      · intro ha
        rcases List.mem_append.mp ha with ha | ha
        · exact List.mem_append_left _ ((h2 a).mpr ha)
        · exact List.mem_append_right _ (by simpa using ha)
    · intro ee hee
      rcases List.mem_append.mp hee with he | he
      · have hsymm : (t.tokenAddress == ee.1) = false := by
          have := hall ee he
          rw [beq_eq_false_iff_ne] at this ⊢
          exact fun hh => this hh.symm
        rw [List.filter_append,
          show List.filter (fun u => u.tokenAddress == ee.1) [t] = [] by
            simp [List.filter_cons, hsymm],
          List.append_nil]
        exact h3 ee he
      · simp only [List.mem_singleton] at he
        subst he
        have hfp : p.filter (fun u => u.tokenAddress == t.tokenAddress) = [] := by
          rw [List.filter_eq_nil_iff]
          intro u hu hc
          exact htnot ((h2 t.tokenAddress).mpr
            (List.mem_map.mpr ⟨u, hu, beq_iff_eq.mp hc⟩))
        rw [List.filter_append, hfp, List.nil_append,
          show List.filter (fun u => u.tokenAddress == t.tokenAddress) [t] = [t] by simp]
        rfl
    · intro ee hee
      rcases List.mem_append.mp hee with he | he
      · exact h4 ee he
      · simp only [List.mem_singleton] at he
        subst he
        rfl

/-- The dedupe invariants hold after folding `Map.set` over any suffix. -/
theorem dedupe_foldl_inv :
    ∀ (l : List ListingToken) (m : List (String × ListingToken)) (p : List ListingToken),
      (m.map (·.1)).Nodup →
      (∀ a, a ∈ m.map (·.1) ↔ a ∈ p.map (·.tokenAddress)) →
      (∀ e ∈ m, (p.filter (fun u => u.tokenAddress == e.1)).getLast? = some e.2) →
      (∀ e ∈ m, e.2.tokenAddress = e.1) →
      (((l.foldl (fun acc u => mapInsert acc u.tokenAddress u) m).map (·.1)).Nodup)
      ∧ (∀ a, a ∈ (l.foldl (fun acc u => mapInsert acc u.tokenAddress u) m).map (·.1) ↔
          a ∈ (p ++ l).map (·.tokenAddress))
      ∧ (∀ e ∈ l.foldl (fun acc u => mapInsert acc u.tokenAddress u) m,
          ((p ++ l).filter (fun u => u.tokenAddress == e.1)).getLast? = some e.2)
      ∧ (∀ e ∈ l.foldl (fun acc u => mapInsert acc u.tokenAddress u) m,
          e.2.tokenAddress = e.1) := by
  intro l
  induction l with
  | nil =>
    intro m p h1 h2 h3 h4
    simp only [List.foldl_nil, List.append_nil]
    exact ⟨h1, h2, h3, h4⟩
  | cons t l ih =>
    intro m p h1 h2 h3 h4
    obtain ⟨g1, g2, g3, g4⟩ := mapInsert_step m p t h1 h2 h3 h4
    have hres := ih (mapInsert m t.tokenAddress t) (p ++ [t]) g1 g2 g3 g4
    rw [show (p ++ [t]) ++ l = p ++ t :: l by simp] at hres
    simpa only [List.foldl_cons] using hres

/-- C7. The token list handed to caching/enrichment is exactly the listing
entries whose `chainId` is `solana`, deduplicated by `tokenAddress` with the
last occurrence winning: addresses are pairwise distinct, an address is
present iff some solana entry has it, and each output record equals the last
solana entry with its address.  (Entries are assumed to carry a nonempty
address; the code also drops address-less entries.) -/
theorem claim_C7_dedupe (allTokens : List ListingToken)
    (h : ∀ t ∈ allTokens, t.tokenAddress ≠ "") :
    ((dedupeSolana allTokens).map (·.tokenAddress)).Nodup
  ∧ (∀ a, a ∈ (dedupeSolana allTokens).map (·.tokenAddress) ↔
      a ∈ (allTokens.filter (fun t => t.chainId == "solana")).map (·.tokenAddress))
  ∧ (∀ x ∈ dedupeSolana allTokens,
      ((allTokens.filter (fun t => t.chainId == "solana")).filter
        (fun u => u.tokenAddress == x.tokenAddress)).getLast? = some x) := by
  have hfe : allTokens.filter (fun t => t.chainId == "solana" && t.tokenAddress != "")
      = allTokens.filter (fun t => t.chainId == "solana") := by
    apply List.filter_congr
    intro t ht
    have hne : (t.tokenAddress != "") = true := by
      simpa [bne_iff_ne] using h t ht
    rw [hne, Bool.and_true]
  obtain ⟨g1, g2, g3, g4⟩ := dedupe_foldl_inv
    (allTokens.filter (fun t => t.chainId == "solana")) [] []
    (by simp) (by simp) (by simp) (by simp)
  unfold dedupeSolana
  rw [hfe]
  have hvals : (((allTokens.filter (fun t => t.chainId == "solana")).foldl
        (fun acc u => mapInsert acc u.tokenAddress u) []).map (·.2)).map
          (·.tokenAddress)
      = ((allTokens.filter (fun t => t.chainId == "solana")).foldl
          (fun acc u => mapInsert acc u.tokenAddress u) []).map (·.1) := by
    rw [List.map_map]
    apply List.map_congr_left
    intro e he
    exact g4 e he
  refine ⟨?_, ?_, ?_⟩
  · rw [hvals]
    exact g1
  · intro a
    rw [hvals]
    simpa using g2 a
  · intro x hx
    obtain ⟨e, he, rfl⟩ := List.mem_map.mp hx
    rw [g4 e he]
    simpa using g3 e he

/-- C7 witness (scenario A): the 5-entry listing yields exactly 2 records,
the duplicate address keeping its last occurrence (`url = u5`). -/
theorem claim_C7_dedupe_witness :
    (∀ t ∈ c7Listing, t.tokenAddress ≠ "")
  ∧ (dedupeSolana c7Listing).length = 2
  ∧ (dedupeSolana c7Listing).map (fun t => (t.tokenAddress, t.url))
      = [("X", "u5"), ("Y", "u3")]
  ∧ ((dedupeSolana c7Listing).map (·.tokenAddress)).Nodup :=
  have h : ∀ t ∈ c7Listing, t.tokenAddress ≠ "" := by decide
  ⟨h, by decide, by decide, (claim_C7_dedupe c7Listing h).1⟩

/-! ## C8: secondary tier alone carries correctness -/

theorem find?_map_replace_ne {κ α : Type} [BEq κ] [LawfulBEq κ] {k k2 : κ}
    (h : k2 ≠ k) (v : α) (ex : Nat) (m : KV κ α) :
    (m.map (fun e => if e.1 == k then (k, v, ex) else e)).find?
      (fun e => e.1 == k2)
      = m.find? (fun e => e.1 == k2) := by
  induction m with
  | nil => rfl
  | cons hd tl ih =>
    have hkk2 : (k == k2) = false := by
      rw [beq_eq_false_iff_ne]
      exact fun hh => h hh.symm
    rw [List.map_cons]
    cases hbe : (hd.1 == k) with
    | true =>
      have hk2f : (hd.1 == k2) = false := by
        rw [beq_eq_false_iff_ne, beq_iff_eq.mp hbe]
        exact fun hh => h hh.symm
      rw [if_pos rfl]
      simp [List.find?, hkk2, hk2f, ih]
    | false =>
      rw [if_neg (by simp)]
      simp [List.find?, ih]

theorem kvFind_kvSet_ne {κ α : Type} [BEq κ] [LawfulBEq κ] (m : KV κ α)
    {k k2 : κ} (h : k2 ≠ k) (v : α) (ex : Nat) :
    kvFind (kvSet m k v ex) k2 = kvFind m k2 := by
  unfold kvSet kvFind
  split
  · rw [find?_map_replace_ne h v ex m]
  · rw [List.find?_append]
    have hkk2 : (k == k2) = false := by
      rw [beq_eq_false_iff_ne]
      exact fun hh => h hh.symm
    have hsingle : [(k, v, ex)].find? (fun e => e.1 == k2) = none := by
      simp [List.find?, hkk2]
    rw [hsingle, Option.or_none]

theorem dbGet_rel {α : Type} (truthy : α → Bool) (R N : CacheStore α)
    (now : Nat) (t : DbTable) (k : String)
    (h1 : R.redisUp = true) (h2 : N.redisUp = false)
    (h3 : R.basicTbl = N.basicTbl) (h4 : R.enrichedTbl = N.enrichedTbl)
    (hcoh : rcoherent R) :
    dbGet truthy R now t k = dbGet truthy N now t k := by
  have hsql : sqliteTbl R t = sqliteTbl N t := by
    cases t <;> simp [sqliteTbl, h3, h4]
  unfold dbGet redisGet
  rw [h1, h2]
  simp only [if_true, if_false, Bool.false_eq_true, ite_true, ite_false]
  cases hrv : kvGetLive R.redis (RKey.table t k) now with
  | none => rw [hsql]
  | some v =>
    have hlive : kvGetLive (sqliteTbl R t) k now = some v := by
      unfold kvGetLive at hrv ⊢
      cases hf : kvFind R.redis (RKey.table t k) with
      | none => rw [hf] at hrv; exact absurd hrv (by simp)
      | some pe =>
        obtain ⟨v2, e⟩ := pe
        rw [hf] at hrv
        replace hrv : (if now < e then some v2 else none) = some v := hrv
        rw [hcoh t k v2 e hf]
        show (if now < e then some v2 else none) = some v
        by_cases hne : now < e
        · rw [if_pos hne] at hrv ⊢
          exact hrv
        · rw [if_neg hne] at hrv
          exact absurd hrv (by simp)
    rw [hsql] at hlive
    cases truthy v <;> simp [hlive, hsql]

theorem dbSet_basicTbl {α : Type} (st : CacheStore α) (now : Nat) (t : DbTable)
    (k : String) (v : α) (ttl : Nat) :
    (dbSet st now t k v ttl).basicTbl =
      match t with
      | .basic_tokens => kvSet st.basicTbl k v (now + ttl)
      | .enriched_tokens => st.basicTbl := by
  cases t <;> simp [dbSet, redisSet] <;> split <;> rfl

theorem dbSet_enrichedTbl {α : Type} (st : CacheStore α) (now : Nat) (t : DbTable)
    (k : String) (v : α) (ttl : Nat) :
    (dbSet st now t k v ttl).enrichedTbl =
      match t with
      | .basic_tokens => st.enrichedTbl
      | .enriched_tokens => kvSet st.enrichedTbl k v (now + ttl) := by
  cases t <;> simp [dbSet, redisSet] <;> split <;> rfl

theorem dbSet_redisUp {α : Type} (st : CacheStore α) (now : Nat) (t : DbTable)
    (k : String) (v : α) (ttl : Nat) :
    (dbSet st now t k v ttl).redisUp = st.redisUp := by
  cases t <;> simp [dbSet, redisSet] <;> split <;> rfl

theorem dbSet_sqliteTbl {α : Type} (st : CacheStore α) (now : Nat) (t tb : DbTable)
    (k : String) (v : α) (ttl : Nat) :
    sqliteTbl (dbSet st now t k v ttl) tb =
      if tb = t then kvSet (sqliteTbl st t) k v (now + ttl) else sqliteTbl st tb := by
  cases t <;> cases tb <;>
    simp [dbSet, redisSet, sqliteTbl] <;> split <;> rfl

theorem dbSet_redis_on {α : Type} (st : CacheStore α) (now : Nat) (t : DbTable)
    (k : String) (v : α) (ttl : Nat) (h : st.redisUp = true) :
    (dbSet st now t k v ttl).redis
      = kvSet st.redis (RKey.table t k) v (now + ttl) := by
  cases t <;> simp [dbSet, redisSet, h]

/-- `dbSet` preserves primary/secondary coherence. -/
theorem dbSet_coh {α : Type} (R : CacheStore α) (now : Nat) (t : DbTable)
    (k : String) (v : α) (ttl : Nat) (h1 : R.redisUp = true)
    (hcoh : rcoherent R) : rcoherent (dbSet R now t k v ttl) := by
  intro tb k2 v2 e hf
  rw [dbSet_redis_on R now t k v ttl h1] at hf
  rw [dbSet_sqliteTbl]
  by_cases heq : RKey.table tb k2 = RKey.table t k
  · injection heq with heq1 heq2
    subst heq1
    subst heq2
    rw [kvFind_kvSet_self] at hf
    injection hf with hf2
    rw [if_pos rfl, ← hf2, kvFind_kvSet_self]
  · rw [kvFind_kvSet_ne R.redis heq v (now + ttl)] at hf
    by_cases htb : tb = t
    · subst htb
      have hk2 : k2 ≠ k := fun hh => heq (by rw [hh])
      rw [if_pos rfl, kvFind_kvSet_ne _ hk2]
      exact hcoh tb k2 v2 e hf
    · rw [if_neg htb]
      exact hcoh tb k2 v2 e hf

/-- Any history of store operations yields the same outputs and the same
final secondary tier with the primary tier enabled or disabled, provided the
enabled store is coherent and both start from the same secondary tier. -/
theorem runOps_rel {α : Type} (truthy : α → Bool) :
    ∀ (ops : List (StoreOp α)) (R N : CacheStore α),
      R.redisUp = true → N.redisUp = false →
      R.basicTbl = N.basicTbl → R.enrichedTbl = N.enrichedTbl →
      rcoherent R →
      (runOps truthy R ops).2 = (runOps truthy N ops).2
      ∧ (runOps truthy R ops).1.basicTbl = (runOps truthy N ops).1.basicTbl
      ∧ (runOps truthy R ops).1.enrichedTbl = (runOps truthy N ops).1.enrichedTbl := by
  intro ops
  induction ops with
  | nil =>
    intro R N h1 h2 h3 h4 hcoh
    exact ⟨rfl, h3, h4⟩
  | cons op ops ih =>
    intro R N h1 h2 h3 h4 hcoh
    cases op with
    | get t k time =>
      obtain ⟨i1, i2, i3⟩ := ih R N h1 h2 h3 h4 hcoh
      refine ⟨?_, ?_, ?_⟩ <;>
        simp only [runOps, i1, i2, i3,
          dbGet_rel truthy R N time t k h1 h2 h3 h4 hcoh]
    | set t k v ttl time =>
      have g1 : (dbSet R time t k v ttl).redisUp = true := by
        rw [dbSet_redisUp]; exact h1
      have g2 : (dbSet N time t k v ttl).redisUp = false := by
        rw [dbSet_redisUp]; exact h2
      have g3 : (dbSet R time t k v ttl).basicTbl
          = (dbSet N time t k v ttl).basicTbl := by
        rw [dbSet_basicTbl, dbSet_basicTbl, h3]
      have g4 : (dbSet R time t k v ttl).enrichedTbl
          = (dbSet N time t k v ttl).enrichedTbl := by
        rw [dbSet_enrichedTbl, dbSet_enrichedTbl, h4]
      have g5 : rcoherent (dbSet R time t k v ttl) :=
        dbSet_coh R time t k v ttl h1 hcoh
      obtain ⟨i1, i2, i3⟩ := ih (dbSet R time t k v ttl) (dbSet N time t k v ttl)
        g1 g2 g3 g4 g5
      refine ⟨?_, ?_, ?_⟩ <;> simp only [runOps, i1, i2, i3]

/-- C8. The claim fails on `getMarketDataWithLock`: with the primary tier
configuration-disabled (`USE_REDIS` unset — the default — so the Redis
client is never created), the guarded `redisGet` returns null and the
function then dereferences the null client (`redisClient.set`), throwing a
TypeError, whereas the Redis-enabled run succeeds; the README documents
Redis as optional, so this is a code bug.  For the store operations the
claim does hold: any history of `dbGet`/`dbSet` calls produces the same
outputs and the same final secondary tier with the primary tier enabled
(from empty) or disabled. -/
theorem claim_C8_primary_tier_optional :
    (getMarketDataWithLock (fun _ => true) ⟨false, [], [], []⟩ 0 "m" (some (1 : Nat))
        = Except.error "TypeError: Cannot read properties of null (reading set)"
    ∧ getMarketDataWithLock (fun _ => true) ⟨true, [], [], []⟩ 0 "m" (some (1 : Nat))
        = Except.ok (some 1, ⟨true, [(RKey.mark "recent:market:m", 1, 30)], [], []⟩))
  ∧ (∀ (α : Type) (truthy : α → Bool) (basic enriched : KV String α)
        (ops : List (StoreOp α)),
      (runOps truthy ⟨true, [], basic, enriched⟩ ops).2
        = (runOps truthy ⟨false, [], basic, enriched⟩ ops).2
      ∧ (runOps truthy ⟨true, [], basic, enriched⟩ ops).1.basicTbl
        = (runOps truthy ⟨false, [], basic, enriched⟩ ops).1.basicTbl
      ∧ (runOps truthy ⟨true, [], basic, enriched⟩ ops).1.enrichedTbl
        = (runOps truthy ⟨false, [], basic, enriched⟩ ops).1.enrichedTbl) := by
  constructor
  · exact ⟨rfl, rfl⟩
  · intro α truthy basic enriched ops
    exact runOps_rel truthy ops ⟨true, [], basic, enriched⟩ ⟨false, [], basic, enriched⟩
      rfl rfl rfl rfl (by intro tb k v e hf; simp [kvFind] at hf)

/-! ## C9: single-flight under interleaving -/

namespace SingleFlight

theorem lookup_set {β : Type} {l : List β} {i : Nat} {p : β}
    (h : l[i]? = some p) (q : β) (j : Nat) :
    (l.set i q)[j]? = if i = j then some q else l[j]? := by
  obtain ⟨hlt, _⟩ := List.getElem?_eq_some.mp h
  rw [List.getElem?_set]
  simp [hlt]

theorem init_inv (α : Type) (n : Nat) : Inv (init α n) := by
  refine ⟨?_, ?_, ?_⟩
  · intro i p hp hreg
    simp only [init] at hp
    rw [List.getElem?_replicate] at hp
    split at hp
    · injection hp with hp2
      rw [← hp2] at hreg
      simp [inRegion] at hreg
    · exact absurd hp (by simp)
  · intro i j p q hp _ _ hrp _
    simp only [init] at hp
    rw [List.getElem?_replicate] at hp
    split at hp
    · injection hp with hp2
      rw [← hp2] at hrp
      simp [inRegion] at hrp
    · exact absurd hp (by simp)
  · intro p hp
    simp only [init] at hp
    rw [List.mem_replicate] at hp
    rw [hp.2]
    refine ⟨by simp, fun _ => rfl, fun _ => ⟨rfl, rfl⟩, ?_⟩
    intro j hj
    simp at hj

theorem step_inv {α : Type} (fr : Nat → Option α) (cfg : Config α) (i : Nat)
    (h : Inv cfg) : Inv (step fr cfg i) := by
  obtain ⟨h1, h2, h3⟩ := h
  cases hpi : cfg.procs[i]? with
  | none => simpa only [step, hpi] using ⟨h1, h2, h3⟩
  | some p =>
    have hpmem : p ∈ cfg.procs := by
      obtain ⟨hlt, he⟩ := List.getElem?_eq_some.mp hpi
      exact he ▸ List.getElem_mem hlt
    obtain ⟨hple, hpfetch, hpev, hppoll⟩ := h3 p hpmem
    have benign : ∀ (p' : Proc α), inRegion p'.pc = false →
        p'.fetches ≤ 1 →
        (preFetch p'.pc = true → p'.fetches = 0) →
        (p'.everHeld = false → p'.fetches = 0 ∧ inRegion p'.pc = false) →
        (∀ j, p'.pc = Pc.polling j → j ≤ 20) →
        ∀ (rec2 : Option α),
        Inv { lock := cfg.lock, recently := rec2, procs := cfg.procs.set i p' } := by
      intro p' hreg hf1 hf2 hf3 hf4 rec2
      refine ⟨?_, ?_, ?_⟩
      · intro i2 q hq hrq
        rw [lookup_set hpi p' i2] at hq
        split at hq
        · injection hq with hq2
          rw [← hq2, hreg] at hrq
          exact absurd hrq (by simp)
        · exact h1 i2 q hq hrq
      · intro i2 j2 q r hq hr hij hrq hrr
        rw [lookup_set hpi p' i2] at hq
        rw [lookup_set hpi p' j2] at hr
        split at hq
        · injection hq with hq2
          rw [← hq2, hreg] at hrq
          exact absurd hrq (by simp)
        · split at hr
          · injection hr with hr2
            rw [← hr2, hreg] at hrr
            exact absurd hrr (by simp)
          · exact h2 i2 j2 q r hq hr hij hrq hrr
      · intro q hq
        rcases List.mem_or_eq_of_mem_set hq with hq | hq
        · exact h3 q hq
        · rw [hq]
          exact ⟨hf1, hf2, hf3, hf4⟩
    have hpc0 : preFetch p.pc = true → p.fetches = 0 := hpfetch
    cases hpc : p.pc with
    | start =>
      cases hrec : cfg.recently with
      | some r =>
        simp only [step, hpi, hpc, hrec]
        refine benign { p with pc := Pc.done (some r) } rfl hple ?_ ?_ ?_ cfg.recently
        · intro hh; simp [preFetch] at hh
        · intro he; exact ⟨(hpev he).1, rfl⟩
        · intro j hj; simp at hj
      | none =>
        simp only [step, hpi, hpc, hrec]
        refine benign { p with pc := Pc.tryLock } rfl hple ?_ ?_ ?_ cfg.recently
        · intro _; exact hpc0 (by rw [hpc]; rfl)
        · intro he; exact ⟨(hpev he).1, rfl⟩
        · intro j hj; simp at hj
    | tryLock =>
      by_cases hlock : cfg.lock = true
      · simp only [step, hpi, hpc, hlock, if_true]
        rw [← hlock]
        refine benign { p with pc := Pc.polling 0 } rfl hple ?_ ?_ ?_ cfg.recently
        · intro _; exact hpc0 (by rw [hpc]; rfl)
        · intro he; exact ⟨(hpev he).1, rfl⟩
        · intro j hj
          injection hj with hj2
          omega
      · have hlockf : cfg.lock = false := by
          cases hcl : cfg.lock
          · rfl
          · exact absurd hcl hlock
        simp only [step, hpi, hpc, hlockf, Bool.false_eq_true, if_false]
        refine ⟨?_, ?_, ?_⟩
        · intro i2 q hq hrq
          rfl
        · intro i2 j2 q r hq hr hij hrq hrr
          rw [lookup_set hpi _ i2] at hq
          rw [lookup_set hpi _ j2] at hr
          split at hq
          · rename_i hii2
            injection hq with hq2
            split at hr
            · rename_i hij2
              exact hij (by rw [← hii2, ← hij2])
            · exact absurd (h1 j2 r hr hrr) (by rw [hlockf]; simp)
          · exact absurd (h1 i2 q hq hrq) (by rw [hlockf]; simp)
        · intro q hq
          rcases List.mem_or_eq_of_mem_set hq with hq | hq
          · exact h3 q hq
          · rw [hq]
            refine ⟨hple, ?_, ?_, ?_⟩
            · intro _; exact hpc0 (by rw [hpc]; rfl)
            · intro he; simp at he
            · intro j hj; simp at hj
    | fetching =>
      have hregp : inRegion p.pc = true := by rw [hpc]; rfl
      have hf0 : p.fetches = 0 := hpc0 (by rw [hpc]; rfl)
      simp only [step, hpi, hpc]
      refine ⟨?_, ?_, ?_⟩
      · intro i2 q hq hrq
        exact h1 i p hpi hregp
      · intro i2 j2 q r hq hr hij hrq hrr
        rw [lookup_set hpi _ i2] at hq
        rw [lookup_set hpi _ j2] at hr
        split at hq
        · rename_i hii2
          injection hq with hq2
          split at hr
          · rename_i hij2
            exact hij (by rw [← hii2, ← hij2])
          · rename_i hij2
            exact h2 i j2 p r hpi hr hij2 hregp hrr
        · split at hr
          · rename_i hij2
            exact h2 i2 i q p hq hpi (by subst hij2; exact hij) hrq hregp
          · exact h2 i2 j2 q r hq hr hij hrq hrr
      · intro q hq
        rcases List.mem_or_eq_of_mem_set hq with hq | hq
        · exact h3 q hq
        · rw [hq]
          refine ⟨by simp [hf0], ?_, ?_, ?_⟩
          · intro hh; simp [preFetch] at hh
          · intro he
            exact absurd (hpev he).2 (by rw [hregp]; simp)
          · intro j hj; simp at hj
    | storing d =>
      have hregp : inRegion p.pc = true := by rw [hpc]; rfl
      have hlock := h1 i p hpi hregp
      cases d with
      | some v =>
        simp only [step, hpi, hpc]
        refine ⟨?_, ?_, ?_⟩
        · intro i2 q hq hrq
          exact hlock
        · intro i2 j2 q r hq hr hij hrq hrr
          rw [lookup_set hpi _ i2] at hq
          rw [lookup_set hpi _ j2] at hr
          split at hq
          · rename_i hii2
            injection hq with hq2
            split at hr
            · rename_i hij2
              exact hij (by rw [← hii2, ← hij2])
            · rename_i hij2
              exact h2 i j2 p r hpi hr hij2 hregp hrr
          · split at hr
            · rename_i hij2
              exact h2 i2 i q p hq hpi (by subst hij2; exact hij) hrq hregp
            · exact h2 i2 j2 q r hq hr hij hrq hrr
        · intro q hq
          rcases List.mem_or_eq_of_mem_set hq with hq | hq
          · exact h3 q hq
          · rw [hq]
            refine ⟨hple, ?_, ?_, ?_⟩
            · intro hh; simp [preFetch] at hh
            · intro he
              exact absurd (hpev he).2 (by rw [hregp]; simp)
            · intro j hj; simp at hj
      | none =>
        simp only [step, hpi, hpc]
        refine ⟨?_, ?_, ?_⟩
        · intro i2 q hq hrq
          exact hlock
        · intro i2 j2 q r hq hr hij hrq hrr
          rw [lookup_set hpi _ i2] at hq
          rw [lookup_set hpi _ j2] at hr
          split at hq
          · rename_i hii2
            injection hq with hq2
            split at hr
            · rename_i hij2
              exact hij (by rw [← hii2, ← hij2])
            · rename_i hij2
              exact h2 i j2 p r hpi hr hij2 hregp hrr
          · split at hr
            · rename_i hij2
              exact h2 i2 i q p hq hpi (by subst hij2; exact hij) hrq hregp
            · exact h2 i2 j2 q r hq hr hij hrq hrr
        · intro q hq
          rcases List.mem_or_eq_of_mem_set hq with hq | hq
          · exact h3 q hq
          · rw [hq]
            refine ⟨hple, ?_, ?_, ?_⟩
            · intro hh; simp [preFetch] at hh
            · intro he
              exact absurd (hpev he).2 (by rw [hregp]; simp)
            · intro j hj; simp at hj
    | releasing d =>
      have hregp : inRegion p.pc = true := by rw [hpc]; rfl
      simp only [step, hpi, hpc]
      refine ⟨?_, ?_, ?_⟩
      · intro i2 q hq hrq
        rw [lookup_set hpi _ i2] at hq
        split at hq
        · injection hq with hq2
          rw [← hq2] at hrq
          simp [inRegion] at hrq
        · exact absurd (h2 i i2 p q hpi hq (by rename_i hii2; exact hii2) hregp hrq) (by simp)
      · intro i2 j2 q r hq hr hij hrq hrr
        rw [lookup_set hpi _ i2] at hq
        rw [lookup_set hpi _ j2] at hr
        split at hq
        · injection hq with hq2
          rw [← hq2] at hrq
          simp [inRegion] at hrq
        · split at hr
          · injection hr with hr2
            rw [← hr2] at hrr
            simp [inRegion] at hrr
          · exact h2 i2 j2 q r hq hr hij hrq hrr
      · intro q hq
        rcases List.mem_or_eq_of_mem_set hq with hq | hq
        · exact h3 q hq
        · rw [hq]
          refine ⟨hple, ?_, ?_, ?_⟩
          · intro hh; simp [preFetch] at hh
          · intro he
            exact absurd (hpev he).2 (by rw [hregp]; simp)
          · intro j hj; simp at hj
    | polling j =>
      by_cases hj20 : 20 ≤ j
      · simp only [step, hpi, hpc, hj20, if_true]
        refine benign { p with pc := Pc.done none } rfl hple ?_ ?_ ?_ cfg.recently
        · intro hh; simp [preFetch] at hh
        · intro he; exact ⟨(hpev he).1, rfl⟩
        · intro j2 hj2; simp at hj2
      · simp only [step, hpi, hpc, hj20, if_false]
        cases hrec : cfg.recently with
        | some r =>
          refine benign { p with pc := Pc.done (some r) } rfl hple ?_ ?_ ?_ cfg.recently
          · intro hh; simp [preFetch] at hh
          · intro he; exact ⟨(hpev he).1, rfl⟩
          · intro j2 hj2; simp at hj2
        | none =>
          refine benign { p with pc := Pc.polling (j + 1) } rfl hple ?_ ?_ ?_ cfg.recently
          · intro _; exact hpc0 (by rw [hpc]; rfl)
          · intro he; exact ⟨(hpev he).1, rfl⟩
          · intro j2 hj2
            injection hj2 with hj3
            have := hppoll j hpc
            omega
    | done r =>
      simpa only [step, hpi, hpc] using ⟨h1, h2, h3⟩

theorem run_inv {α : Type} (fr : Nat → Option α) (sched : List Nat) :
    ∀ (cfg : Config α), Inv cfg → Inv (run fr cfg sched) := by
  induction sched with
  | nil => intro cfg h; exact h
  | cons s sched ih =>
    intro cfg h
    simp only [run, List.foldl_cons]
    exact ih (step fr cfg s) (step_inv fr cfg s h)

end SingleFlight

/-- C9 counterexample: two callers concurrently invoking the single-flight
lookup on the same key within one lock-TTL window can BOTH perform a real
upstream fetch.  Caller 1 reads the (empty) recent marker; caller 0 then
acquires the lock, fetches, stores the marker, and releases; caller 1's
subsequent `SET NX` succeeds on the freed lock and it fetches again: two
real fetches in one window, refuting "exactly one real upstream fetch per
key per lock window". -/
theorem claim_C9_single_flight_counterexample :
    SingleFlight.totalFetches
      (SingleFlight.run (fun _ => some 42) (SingleFlight.init Nat 2)
        [1, 0, 0, 0, 0, 0, 1, 1]) = 2
  ∧ ((SingleFlight.run (fun _ => some 42) (SingleFlight.init Nat 2)
        [1, 0, 0, 0, 0, 0, 1, 1]).procs.map (·.fetches)) = [1, 1] := by
  constructor
  · rfl
  · rfl

/-- C9 (amended): in every interleaving of any number of callers (within
one lock-TTL window, so no lock expiry), at most one caller is inside the
fetch-and-release critical section at any instant; each caller performs at
most one upstream fetch; a caller that never won the lock performs none;
and a caller polls the recent marker at most 20 times.  The original
"exactly one real fetch per key per lock window" does not hold (see the
counterexample): a second caller may fetch after the first releases. -/
theorem claim_C9_single_flight_amended (α : Type) (fr : Nat → Option α)
    (n : Nat) (sched : List Nat) :
    (∀ (i j : Nat) (p q : SingleFlight.Proc α),
        (SingleFlight.run fr (SingleFlight.init α n) sched).procs[i]? = some p →
        (SingleFlight.run fr (SingleFlight.init α n) sched).procs[j]? = some q →
        i ≠ j →
        ¬(SingleFlight.inRegion p.pc = true ∧ SingleFlight.inRegion q.pc = true))
  ∧ (∀ p ∈ (SingleFlight.run fr (SingleFlight.init α n) sched).procs,
        p.fetches ≤ 1
      ∧ (p.everHeld = false → p.fetches = 0)
      ∧ (∀ j2, p.pc = SingleFlight.Pc.polling j2 → j2 ≤ 20)) := by
  obtain ⟨g1, g2, g3⟩ := SingleFlight.run_inv fr sched (SingleFlight.init α n)
    (SingleFlight.init_inv α n)
  constructor
  · intro i j p q hp hq hij hboth
    exact g2 i j p q hp hq hij hboth.1 hboth.2
  · intro p hp
    obtain ⟨k1, _, k3, k4⟩ := g3 p hp
    exact ⟨k1, fun he => (k3 he).1, k4⟩

/-- C9 witness for the amended theorem: the per-process bounds applied to
the first caller of the counterexample schedule, which ends `done` with
exactly one fetch. -/
theorem claim_C9_single_flight_amended_witness :
    ({ pc := SingleFlight.Pc.done (some 42), fetches := 1, everHeld := true } :
        SingleFlight.Proc Nat).fetches ≤ 1
  ∧ (({ pc := SingleFlight.Pc.done (some 42), fetches := 1, everHeld := true } :
        SingleFlight.Proc Nat).everHeld = false →
      ({ pc := SingleFlight.Pc.done (some 42), fetches := 1, everHeld := true } :
        SingleFlight.Proc Nat).fetches = 0)
  ∧ (∀ j2, ({ pc := SingleFlight.Pc.done (some 42), fetches := 1, everHeld := true } :
        SingleFlight.Proc Nat).pc = SingleFlight.Pc.polling j2 → j2 ≤ 20) :=
  (claim_C9_single_flight_amended Nat (fun _ => some 42) 2
    [1, 0, 0, 0, 0, 0, 1, 1]).2
    { pc := SingleFlight.Pc.done (some 42), fetches := 1, everHeld := true }
    (by decide)
